import Mathlib

/-!
Verification of the core scheduling/dispatch engine of buildbot
(`master/buildbot/process/buildrequestdistributor.py` and
`master/buildbot/schedulers/triggerable.py`), as a shallow embedding.

Conventions of the embedding:
* Python lists become `List`, Python dicts become association lists
  (`List (key × value)`) whose insert operation replaces an existing key,
  so keys stay unique, mirroring dict semantics.
* Python's stable `list.sort` / `sorted` becomes Mathlib's stable
  `List.insertionSort` with the corresponding (total) relation.
* The cooperative (Twisted deferred) code is single-threaded between
  suspension points; it is embedded as pure state-passing functions.
* External collaborators (the data store, the builder's
  `canStartBuild`/`maybeStartBuild`, policy callbacks) are oracle
  parameters.  A policy callback that raises is caught and logged at the
  call sites in the source; it is modelled as the callback returning
  `none`, which the call sites treat identically.
-/

namespace Buildbot

/-- An execution agent identity (opaque in the source; modelled by a number). -/
abbrev Worker := Nat

/-- A raw unclaimed build-request dictionary, as returned by
`master.data.get(('builders', builderid, 'buildrequests'), [claimed == False])`
and cached in `BuildChooserBase.unclaimedBrdicts`.  Only the fields the
scheduling core reads are kept. -/
structure Brdict where
  buildrequestid : Nat
  buildsetid : Nat
  priority : Int
  submitted_at : Int
  waited_for : Bool
deriving DecidableEq, Repr

/-- A resolved `BuildRequest` object (`buildbot.process.buildrequest`),
built by `_getBuildRequestForBrdict` from a `BuildRequestModel` whose fields
are copied from the brdict (source lines 113-135).  Only the fields read by
the distributor are kept. -/
structure BReq where
  id : Nat
  bsid : Nat
  priority : Int
  waited_for : Bool
deriving DecidableEq, Repr

/-- The `BuildRequest` constructed from a brdict: `BuildRequestModel` is
filled field-by-field from the brdict, so the resolved object's identifiers
agree with the raw entry's (source lines 113-119, 126-129). -/
def breqOfBrdict (brd : Brdict) : BReq :=
  { id := brd.buildrequestid
    bsid := brd.buildsetid
    priority := brd.priority
    waited_for := brd.waited_for }

/-- Dictionary lookup on an association list (Python `d.get(k)`). -/
def dictLookup (l : List (Nat × α)) (k : Nat) : Option α :=
  match l with
  | [] => none
  | p :: ps => if p.1 = k then some p.2 else dictLookup ps k

/-- Insert into an association list with dict semantics: replace the value
in place if the key is present, append otherwise. -/
def dictInsert (l : List (Nat × α)) (k : Nat) (v : α) : List (Nat × α) :=
  if (dictLookup l k).isSome then
    l.map (fun p => if p.1 = k then (k, v) else p)
  else
    l ++ [(k, v)]

/-- Delete a key from an association list (Python `del d[k]`; keys are
unique in a dict, so removing every pair with the key is the same). -/
def dictErase (l : List (Nat × α)) (k : Nat) : List (Nat × α) :=
  l.filter (fun p => p.1 ≠ k)

/-- The oracles a `BasicBuildChooser` interacts with.

* `store` is the list of unclaimed request dictionaries the data store
  returns for this builder (the `master.data.get` in
  `_fetchUnclaimedBrdicts`).
* `availableWorkers` is `bldr.getAvailableWorkers()` (modelled as constant
  over the short chooser lifetime).
* `nextWorker` is the next-worker policy (`config.nextWorker`, or
  `select_next_worker`, or the default `random.choice`): it receives the
  current fresh pool and the chosen request and returns a worker or
  nothing; an exception inside the callback is caught by the source and
  treated as returning nothing, so it is folded into the `none` result.
* `canStartBuild` is `bldr.canStartBuild` (the feasibility predicate).
* `nextBuild` is the optional next-build policy; it receives the list of
  resolved requests, which may contain `none` entries for requests whose
  resolution returned nothing; exceptions are caught at the call site and
  treated as `none`.
* `resolveOk` tells whether `_getBuildRequestForBrdict` succeeds for a
  brdict (the builder row exists and `BuildRequest.fromBrdict` yields an
  object); on success the resolved object is `breqOfBrdict`. -/
structure ChooserEnv where
  store : List Brdict
  availableWorkers : List Worker
  nextWorker : List Worker → BReq → Option Worker
  canStartBuild : Worker → BReq → Bool
  nextBuild : Option (List (Option BReq) → Option BReq)
  resolveOk : Brdict → Bool

/-- The mutable state of a `BuildChooserBase`/`BasicBuildChooser` instance:
the unclaimed-request cache (`none` until fetched, which is also the
invalidation state), the per-id resolved-request memo `breqCache`, and the
two worker pools of `BasicBuildChooser`. -/
structure ChooserState where
  unclaimedBrdicts : Option (List Brdict)
  breqCache : List (Nat × BReq)
  workerpool : List Worker
  preferredWorkers : List Worker
deriving DecidableEq, Repr

/-- `BasicBuildChooser.__init__`: empty caches, the fresh pool is
`bldr.getAvailableWorkers()`, no preferred workers yet. -/
def mkBasicBuildChooser (env : ChooserEnv) : ChooserState :=
  { unclaimedBrdicts := none
    breqCache := []
    workerpool := env.availableWorkers
    preferredWorkers := [] }

/-- The sort applied by `_fetchUnclaimedBrdicts`:
`brdicts.sort(key=lambda brd: brd['buildrequestid'])`. -/
def brdictIdLe (a b : Brdict) : Prop :=
  a.buildrequestid ≤ b.buildrequestid

instance : DecidableRel brdictIdLe := fun a b => by
  unfold brdictIdLe; infer_instance

/-- `BuildChooserBase._fetchUnclaimedBrdicts`: if the cache is `None`,
query the store, sort the result by `buildrequestid` and memoize it;
otherwise do nothing.  The extra `Bool` records whether the store was
queried by this call. -/
def fetchUnclaimedBrdicts (store : List Brdict) (st : ChooserState) :
    List Brdict × ChooserState × Bool :=
  match st.unclaimedBrdicts with
  | some cached => (cached, st, false)
  | none =>
    let brdicts := List.insertionSort brdictIdLe store
    (brdicts, { st with unclaimedBrdicts := some brdicts }, true)

/-- Cache invalidation as described in the `_fetchUnclaimedBrdicts`
docstring: "If a refetch is desired, set the self.unclaimedBrdicts to None
before calling." -/
def invalidateBrdictCache (st : ChooserState) : ChooserState :=
  { st with unclaimedBrdicts := none }

/-- `BuildChooserBase._getBuildRequestForBrdict`: look the id up in the
`breqCache` memo; on a miss, resolve the brdict (builder row lookup and
`BuildRequest.fromBrdict`) and memoize the result when it is an object. -/
def getBuildRequestForBrdict (env : ChooserEnv) (st : ChooserState)
    (brd : Brdict) : Option BReq × ChooserState :=
  match dictLookup st.breqCache brd.buildrequestid with
  | some breq => (some breq, st)
  | none =>
    if env.resolveOk brd then
      let breq := breqOfBrdict brd
      (some breq,
       { st with breqCache := dictInsert st.breqCache brd.buildrequestid breq })
    else
      (none, st)

/-- `BuildChooserBase._getBrdictForBuildRequest`: scan the cached brdicts
for the one whose `buildrequestid` equals `breq.id` (first match). -/
def getBrdictForBuildRequest (cache : List Brdict) (breq : BReq) :
    Option Brdict :=
  cache.find? (fun brd => breq.id = brd.buildrequestid)

/-- `BuildChooserBase._removeBuildRequest`: remove the request's brdict
from the unclaimed cache (if present) and its entry from the resolved
memo.  The store is not touched. -/
def removeBuildRequest (st : ChooserState) (breq : BReq) : ChooserState :=
  { st with
    unclaimedBrdicts :=
      some (match getBrdictForBuildRequest (st.unclaimedBrdicts.getD []) breq with
            | some brdict => (st.unclaimedBrdicts.getD []).erase brdict
            | none => st.unclaimedBrdicts.getD [])
    breqCache := dictErase st.breqCache breq.id }

/-- The sequential fan-out of `_getUnclaimedBuildRequests` over the cached
brdicts, threading the shared `breqCache` memo; each item yields `none`
when its resolution returns nothing. -/
def getUnclaimedBuildRequests (env : ChooserEnv) (st : ChooserState) :
    List Brdict → List (Option BReq) × ChooserState
  | [] => ([], st)
  | brd :: rest =>
    let (r, st1) := getBuildRequestForBrdict env st brd
    let (rs, st2) := getUnclaimedBuildRequests env st1 rest
    (r :: rs, st2)

/-- Twisted's `defer.gatherResults` over already-determined results: if
every deferred succeeded the gathered deferred fires with the list of
results; if any failed, the gathered deferred fails with the first
failure (`FirstError`).  `consumeErrors=True` only suppresses
unhandled-error reporting for the remaining failures; it does not change
which result the caller sees. -/
def gatherResults (l : List (Except ε α)) : Except ε (List α) :=
  match l with
  | [] => .ok []
  | x :: xs =>
    match x with
    | .error e => .error e
    | .ok a => (gatherResults xs).map (a :: ·)

/-- `_getUnclaimedBuildRequests` with per-item resolution outcomes made
explicit: each `_getBuildRequestForBrdict` deferred either fails
(`.error`) or succeeds with an optional request object, and the batch is
combined with `defer.gatherResults(..., consumeErrors=True)`. -/
def getUnclaimedBuildRequestsGather (resolve : Brdict → Except Unit (Option BReq))
    (cache : List Brdict) : Except Unit (List (Option BReq)) :=
  gatherResults (cache.map resolve)

/-- The sort used by the default branch of
`_getNextUnclaimedBuildRequest`:
`sorted(self.unclaimedBrdicts.data, key=lambda b: b['priority'], reverse=True)`.
Python's `reverse=True` sort is stable and descending, i.e. a stable sort
with the reversed comparison. -/
def brdictPriorityGe (a b : Brdict) : Prop :=
  b.priority ≤ a.priority

instance : DecidableRel brdictPriorityGe := fun a b => by
  unfold brdictPriorityGe; infer_instance

/-- `BasicBuildChooser._getNextUnclaimedBuildRequest`: ensure the cache is
fetched; if it is empty there is no request.  With a `nextBuild` policy,
resolve all cached entries, call the policy and discard its answer unless
it is a member of the resolved list (exceptions, modelled by a `none`
answer, are discarded the same way).  Without a policy, take the first
entry of the priority-descending stable sort of the cache and resolve it. -/
def getNextUnclaimedBuildRequest (env : ChooserEnv) (st : ChooserState) :
    Option BReq × ChooserState :=
  let (cache, st1, _) := fetchUnclaimedBrdicts env.store st
  if cache.isEmpty then
    (none, st1)
  else
    match env.nextBuild with
    | some policy =>
      let (breqs, st2) := getUnclaimedBuildRequests env st1 cache
      let nextBreq :=
        match policy breqs with
        | some r => if (some r) ∈ breqs then some r else none
        | none => none
      (nextBreq, st2)
    | none =>
      match (List.insertionSort brdictPriorityGe cache).head? with
      | some brdict => getBuildRequestForBrdict env st1 brdict
      | none => (none, st1)

/-- `BasicBuildChooser._popNextWorker`: preferred workers are consumed
first (front of the list, no policy involvement); otherwise, while the
fresh pool is nonempty, invoke the next-worker policy once — the loop body
either breaks (no worker, or a worker not in the pool) or removes the
returned worker from the pool and returns it, so the policy runs at most
once per call.  The `Nat` counts the policy invocations of this call. -/
def popNextWorker (env : ChooserEnv) (st : ChooserState) (breq : BReq) :
    Option Worker × ChooserState × Nat :=
  match st.preferredWorkers with
  | w :: rest => (some w, { st with preferredWorkers := rest }, 0)
  | [] =>
    match st.workerpool with
    | [] => (none, st, 0)
    | _ :: _ =>
      match env.nextWorker st.workerpool breq with
      | none => (none, st, 1)
      | some w =>
        if w ∈ st.workerpool then
          (some w, { st with workerpool := st.workerpool.erase w }, 1)
        else
          (none, st, 1)

/-- `BasicBuildChooser._unpopWorkers`: push the given workers back onto
the front of the preferred list (`self.preferredWorkers[:0] = workers`). -/
def unpopWorkers (st : ChooserState) (workers : List Worker) : ChooserState :=
  { st with preferredWorkers := workers ++ st.preferredWorkers }

/-- The inner loop of `popNextBuild` step 3: starting from a drawn worker,
keep checking `canStartBuild`; rejected workers are appended to the local
`recycledWorkers` list and another worker is popped.  Returns the usable
worker (if any), the state after the pops, the recycled list, and the
number of next-worker policy invocations. -/
def findUsableWorker (env : ChooserEnv) (breq : BReq) (st : ChooserState)
    (w : Worker) (recycled : List Worker) :
    Option Worker × ChooserState × List Worker × Nat :=
  if env.canStartBuild w breq then
    (some w, st, recycled, 0)
  else
    match h : popNextWorker env st breq with
    | (some w2, st2, n) =>
      let r := findUsableWorker env breq st2 w2 (recycled ++ [w])
      (r.1, r.2.1, r.2.2.1, n + r.2.2.2)
    | (none, st2, n) => (none, st2, recycled ++ [w], n)
termination_by st.preferredWorkers.length + st.workerpool.length
decreasing_by
  unfold popNextWorker at h
  split at h
  · rename_i pw rest hp
    simp only [Prod.mk.injEq] at h
    obtain ⟨-, h2, -⟩ := h
    subst h2
    simp [hp]
  · rename_i hp
    split at h
    · simp at h
    · rename_i q qs hw
      split at h
      · simp at h
      · rename_i w3 _hn
        split at h
        · rename_i hmem
          simp only [Prod.mk.injEq] at h
          obtain ⟨-, h2, -⟩ := h
          subst h2
          have hlen := List.length_erase_of_mem hmem
          have hpos : 0 < st.workerpool.length := by rw [hw]; simp
          simp only [hp]
          simp [hlen]
          omega
        · simp at h

/-- The refill of the fresh pool at the top of the `popNextBuild` loop:
`if not self.workerpool and not self.preferredWorkers:
self.workerpool = self.bldr.getAvailableWorkers()`. -/
def refillWorkerPool (env : ChooserEnv) (st : ChooserState) : ChooserState :=
  if st.workerpool.isEmpty ∧ st.preferredWorkers.isEmpty then
    { st with workerpool := env.availableWorkers }
  else st

/-- The recycling step after the feasibility loop:
`if recycledWorkers: self._unpopWorkers(recycledWorkers)`. -/
def recycleWorkers (st : ChooserState) (recycled : List Worker) : ChooserState :=
  if recycled.isEmpty then st else unpopWorkers st recycled

/-- One can also read off the whole of `BasicBuildChooser.popNextBuild` as
a loop, written here with explicit fuel (the loop terminates because every
iteration that neither breaks nor returns removes the chosen request from
the cache; the wrapper `popNextBuild` supplies sufficient fuel).  Besides
the `(worker, breq)` result and final state it returns the total number of
next-worker policy invocations and the list of ids of requests for which
at least one worker was drawn (each of those was passed to
`_removeBuildRequest`). -/
def popNextBuildLoop (env : ChooserEnv) :
    Nat → ChooserState → Option (Worker × BReq) × ChooserState × Nat × List Nat
  | 0, st => (none, st, 0, [])
  | fuel + 1, st =>
    -- 1. pick a build
    let (obreq, st1) := getNextUnclaimedBuildRequest env st
    match obreq with
    | none => (none, st1, 0, [])
    | some breq =>
      -- refill the fresh pool when both pools are empty
      let st2 := refillWorkerPool env st1
      -- 2. pick a worker
      let (oworker, st3, n1) := popNextWorker env st2 breq
      match oworker with
      | none => (none, st3, n1, [])
      | some w =>
        -- either satisfy this build or we leave it for another day
        let st4 := removeBuildRequest st3 breq
        -- 3. make sure worker is usable for the breq
        let (res, st5, recycledWorkers, n2) := findUsableWorker env breq st4 w []
        -- recycle the workers that we did not use to the head of the queue
        let st6 := recycleWorkers st5 recycledWorkers
        -- 4. done? otherwise we will try another build
        match res with
        | some w2 => (some (w2, breq), st6, n1 + n2, [breq.id])
        | none =>
          let (res2, st7, n3, ids) := popNextBuildLoop env fuel st6
          (res2, st7, n1 + n2 + n3, breq.id :: ids)

/-- Fuel sufficient for `popNextBuildLoop`: one more than the number of
cached (or, before the first fetch, stored) unclaimed requests, since each
continuing iteration removes one entry from the cache. -/
def popFuel (env : ChooserEnv) (st : ChooserState) : Nat :=
  (match st.unclaimedBrdicts with
   | some cached => cached.length
   | none => env.store.length) + 1

/-- `BasicBuildChooser.popNextBuild`. -/
def popNextBuild (env : ChooserEnv) (st : ChooserState) :
    Option (Worker × BReq) × ChooserState × Nat × List Nat :=
  popNextBuildLoop env (popFuel env st) st

/-- `BuildChooserBase.chooseNextBuild`: wrap the single request into a
list, or return `(None, None)`. -/
def chooseNextBuild (env : ChooserEnv) (st : ChooserState) :
    Option (Worker × List BReq) × ChooserState × Nat × List Nat :=
  let (res, st1, n, ids) := popNextBuild env st
  match res with
  | some (w, breq) => (some (w, [breq]), st1, n, ids)
  | none => (none, st1, n, ids)

/-! ## Builder priority sorter (`BuildRequestDistributor._defaultSorter`) -/

/-- The per-builder data the default sorter key reads: the builder name,
`bldr.get_highest_priority()` and `bldr.getOldestRequestTime()` (both
`None` when the builder has no pending build requests; a `datetime` time
is converted to its timestamp, modelled here directly as an integer). -/
structure SortBuilder where
  name : String
  highestPriority : Option Int
  oldestRequestTime : Option Int
deriving DecidableEq, Repr

/-- The key computed by `_defaultSorter.key`: `(-priority, time, name)`
where a missing priority becomes `-math.inf` (so its negation is `+inf`,
modelled by `⊤` in `WithTop ℤ`) and a missing time becomes `math.inf`
(again `⊤`).  The tuple comparison of Python is lexicographic, hence the
`×ₗ` products. -/
def defaultSorterKey (b : SortBuilder) : (WithTop ℤ) ×ₗ ((WithTop ℤ) ×ₗ String) :=
  toLex
    ((match b.highestPriority with
      | some p => ((-p : ℤ) : WithTop ℤ)
      | none => ⊤),
     toLex
       ((match b.oldestRequestTime with
         | some t => ((t : ℤ) : WithTop ℤ)
         | none => ⊤),
        b.name))

/-- Comparison of two builders by the default sorter key. -/
def defaultSorterLe (a b : SortBuilder) : Prop :=
  defaultSorterKey a ≤ defaultSorterKey b

instance : DecidableRel defaultSorterLe := fun a b => by
  unfold defaultSorterLe; infer_instance

instance : IsTotal SortBuilder defaultSorterLe :=
  ⟨fun a b => le_total (defaultSorterKey a) (defaultSorterKey b)⟩

instance : IsTrans SortBuilder defaultSorterLe :=
  ⟨fun _ _ _ hab hbc => le_trans hab hbc⟩

/-- `BuildRequestDistributor._defaultSorter`.  Modelled from the spec:
the sorting itself is performed by `buildbot.util.async_sort`, which is
not under `src/`; per the spec ("Default comparator key per builder ...")
it is a stable sort of the builder list by the computed key, which the
key function of `_defaultSorter` (which is under `src/`) provides. -/
def defaultSorter (builders : List SortBuilder) : List SortBuilder :=
  List.insertionSort defaultSorterLe builders

/-! ## The pending-builder set (`BuildRequestDistributor._maybeStartBuildsOn`) -/

/-- The distributor state read and written by `_maybeStartBuildsOn`: the
sorted list of names of builders that need attention, and whether the
activity loop is currently active. -/
structure DistributorPendingState where
  pendingBuilders : List String
  active : Bool
deriving DecidableEq, Repr

/-- `BuildRequestDistributor._maybeStartBuildsOn` (single-threaded between
the suspension points; `sortNames` stands for `_sortBuilders`, which maps
builder names through the configured or default sorter).  The source
short-circuits when `new_builder_set < existing_pending`, a *strict*
subset test; otherwise it replaces the pending list by the sorted union
and, when the activity loop is not already active, starts it.  The
returned `Bool` tells whether this call started the activity loop. -/
def maybeStartBuildsOn (sortNames : List String → List String)
    (st : DistributorPendingState) (newBuilders : List String) :
    DistributorPendingState × Bool :=
  let newBuilderSet := newBuilders.toFinset
  let existingPending := st.pendingBuilders.toFinset
  -- if we won't add any builders, there's nothing to do
  if newBuilderSet < existingPending then
    (st, false)
  else
    -- `list(existing_pending | new_builder_set)` enumerates the union in
    -- an arbitrary order and immediately sorts it; the enumeration is
    -- modelled by deduplicated concatenation
    let pending := sortNames (st.pendingBuilders ++ newBuilders).dedup
    let startLoop := ¬ st.active
    ({ pendingBuilders := pending, active := true }, startLoop)

/-! ## One dispatch attempt (`BuildRequestDistributor._maybeStartBuildsOnBuilder`) -/

/-- The builder object handed to `_maybeStartBuildsOnBuilder`; only its
name is relevant to the embedded step (its `maybeStartBuild` answer is an
oracle argument). -/
structure BuilderRef where
  name : String
deriving DecidableEq, Repr

/-- What one iteration of the `while True` loop of
`_maybeStartBuildsOnBuilder` did. -/
inductive DispatchOutcome where
  /-- the chooser returned no pair: the loop breaks -/
  | noPair
  /-- `distribute_only_waited_childs` filtering left nothing: `continue`
  without claiming -/
  | skippedNoWaited
  /-- the claim failed (some brids already claimed): a fresh Build Chooser
  is created and the loop continues -/
  | claimFailedRetry
  /-- claim and start both succeeded -/
  | started
  /-- the builder declined to start: unclaim and re-signal -/
  | declined
deriving DecidableEq, Repr

/-- The observable effects of one iteration of the dispatch loop. -/
structure DispatchStepResult where
  /-- the in-progress build request ids tracked on the botmaster after the
  iteration -/
  inProgress : Finset Nat
  outcome : DispatchOutcome
  /-- ids passed to `unclaimBuildRequests` during the iteration -/
  unclaimedIds : List Nat
  /-- names passed to `botmaster.maybeStartBuildsForBuilder` during the
  iteration -/
  resignalledNames : List String
  /-- whether the iteration replaced the chooser by a fresh one -/
  freshChooser : Bool
deriving DecidableEq

/-- `BuildRequestDistributor._add_in_progress_brids`.  Modelled from the
spec: `botmaster.add_in_progress_buildrequest` is not under `src/`; per
the spec it marks the ids "in progress" locally, i.e. adds each id to the
locally-tracked set. -/
def add_in_progress_brids (inProgress : Finset Nat) (brids : List Nat) :
    Finset Nat :=
  brids.foldl (fun acc brid => insert brid acc) inProgress

/-- `BuildRequestDistributor._remove_in_progress_brids`.  Modelled from
the spec: `botmaster.remove_in_progress_buildrequest` is not under
`src/`; it clears the local in-progress marker of each id. -/
def remove_in_progress_brids (inProgress : Finset Nat) (brids : List Nat) :
    Finset Nat :=
  brids.foldl (fun acc brid => acc.erase brid) inProgress

/-- One iteration of the `while True` loop of
`BuildRequestDistributor._maybeStartBuildsOnBuilder` (source lines
499-545), as a function of the suspension-point answers:

* `distName` is `self.name`, the distributor service's own name;
* `bldr` is the builder being dispatched;
* `choice` is what `bc.chooseNextBuild()` returned;
* `hasParent bsid` is whether the buildsets query reports a non-`None`
  `parent_buildid` for that buildset;
* `claimOk` is the result of `claimBuildRequests`;
* `startOk` is the result of `bldr.maybeStartBuild`.

Note two facts read directly off the source: the ids are added to the
in-progress set *before* the claim is attempted, and nothing removes them
on the claim-failure path; and the re-signal on a declined start passes
`self.name` (the distributor's name), not `bldr.name`. -/
def maybeStartBuildsOnBuilderStep (distName : String) (_bldr : BuilderRef)
    (distributeOnlyWaitedChilds : Bool) (hasParent : Nat → Bool)
    (choice : Option (Worker × List BReq)) (claimOk : Bool) (startOk : Bool)
    (inProgress : Finset Nat) : DispatchStepResult :=
  match choice with
  | none =>
    { inProgress := inProgress, outcome := .noPair, unclaimedIds := []
      resignalledNames := [], freshChooser := false }
  | some (_worker, breqs) =>
    let filtered :=
      if distributeOnlyWaitedChilds then
        -- parenting is a field of Buildset: collect the buildsets of the
        -- waited-for requests, keep those that have a parent, and keep
        -- the requests whose buildset is among them
        let buildsetIds := (breqs.filter (fun br => br.waited_for)).map (fun br => br.bsid)
        if buildsetIds.isEmpty then none
        else
          let parentedBuildsetIds := buildsetIds.filter (fun bsid => hasParent bsid)
          let breqs2 := breqs.filter (fun br => br.bsid ∈ parentedBuildsetIds)
          if breqs2.isEmpty then none else some breqs2
      else some breqs
    match filtered with
    | none =>
      { inProgress := inProgress, outcome := .skippedNoWaited
        unclaimedIds := [], resignalledNames := [], freshChooser := false }
    | some breqs =>
      let brids := breqs.map (fun br => br.id)
      let inProgress1 := add_in_progress_brids inProgress brids
      if ¬ claimOk then
        -- some brids were already claimed, so start over
        { inProgress := inProgress1, outcome := .claimFailedRetry
          unclaimedIds := [], resignalledNames := [], freshChooser := true }
      else if startOk then
        { inProgress := inProgress1, outcome := .started
          unclaimedIds := [], resignalledNames := [], freshChooser := false }
      else
        -- unclaim, clear the marker, and try starting builds again
        { inProgress := remove_in_progress_brids inProgress1 brids
          outcome := .declined, unclaimedIds := brids
          resignalledNames := [distName], freshChooser := false }

/-! ## Triggerable wait registry (`buildbot/schedulers/triggerable.py`) -/

/-- A buildset-completion message as consumed by
`Triggerable._buildset_complete_cb`. -/
structure BuildsetCompleteMsg where
  bsid : Nat
  results : Int
deriving DecidableEq, Repr

/-- The wait-registry state of a `Triggerable`: `_waiters` maps a buildset
id to the pair (result deferred, originating request ids) — the deferred
is modelled by an identifying number — and `_buildset_complete_consumer`
is whether the shared buildset-complete subscription is open. -/
structure TriggerableState where
  waiters : List (Nat × (Nat × List Nat))
  hasConsumer : Bool
deriving DecidableEq, Repr

/-- `Triggerable._updateWaiters`.  Modelled from the spec where it leaves
`src/`: the `debounce.method(wait=0)` decorator (from
`buildbot.util.debounce`, not under `src/`) is treated as an immediate
call, and per the spec the subscription is "opened lazily only while at
least one waiter is registered, and closed as soon as the registry
becomes empty". -/
def updateWaiters (st : TriggerableState) : TriggerableState :=
  if ¬ st.waiters.isEmpty ∧ ¬ st.hasConsumer then
    { st with hasConsumer := true }
  else if st.waiters.isEmpty ∧ st.hasConsumer then
    { st with hasConsumer := false }
  else
    st

/-- The `setup_waiter` callback inside `Triggerable.trigger`:
`self._waiters[bsid] = (resultsDeferred, brids)` followed by
`self._updateWaiters()`. -/
def setupWaiter (st : TriggerableState) (bsid : Nat) (deferredId : Nat)
    (brids : List Nat) : TriggerableState :=
  updateWaiters { st with waiters := dictInsert st.waiters bsid (deferredId, brids) }

/-- `Triggerable._buildset_complete_cb`: if the message's buildset id is
not registered, return with nothing done; otherwise pop the waiter,
re-evaluate the subscription, and fire the result deferred with
`(results, brids)`.  The second component reports the fired deferred and
the value it was fired with (`none` when no deferred fired). -/
def buildsetCompleteCb (st : TriggerableState) (msg : BuildsetCompleteMsg) :
    TriggerableState × Option (Nat × (Int × List Nat)) :=
  match dictLookup st.waiters msg.bsid with
  | none => (st, none)
  | some (d, brids) =>
    let st1 := updateWaiters { st with waiters := dictErase st.waiters msg.bsid }
    (st1, some (d, (msg.results, brids)))

/-! ## Model-level predicates and concrete scenario instances -/

instance : IsTotal Brdict brdictIdLe :=
  ⟨fun a b => Nat.le_total a.buildrequestid b.buildrequestid⟩

instance : IsTrans Brdict brdictIdLe :=
  ⟨fun _ _ _ hab hbc => Nat.le_trans hab hbc⟩

/-- Well-formedness of the resolved-request memo: every entry is stored
under its own request id (true for every state the source can reach,
since `_getBuildRequestForBrdict` stores the object built from the brdict
under that brdict's id). -/
def WfBreqCache (st : ChooserState) : Prop :=
  ∀ p ∈ st.breqCache, p.2.id = p.1

/-- The unclaimed cache a chooser state effectively works on: the cached
list if fetched, otherwise what the first `_fetchUnclaimedBrdicts` will
produce from the store. -/
def currentBrdicts (env : ChooserEnv) (st : ChooserState) : List Brdict :=
  match st.unclaimedBrdicts with
  | some cached => cached
  | none => List.insertionSort brdictIdLe env.store

/-- The request ids present in the effective unclaimed cache. -/
def currentCacheIds (env : ChooserEnv) (st : ChooserState) : List Nat :=
  (currentBrdicts env st).map (fun brd => brd.buildrequestid)

/-- The sort order asserted by the specification for the fetched cache
("sorted by submission order (ties broken by id)"): primarily by
submission time, ties broken by request id.  This definition follows the
spec's words, for comparison with `fetchUnclaimedBrdicts`, which sorts by
request id alone. -/
def specSubmissionLe (a b : Brdict) : Prop :=
  a.submitted_at < b.submitted_at ∨
    (a.submitted_at = b.submitted_at ∧ a.buildrequestid ≤ b.buildrequestid)

instance : DecidableRel specSubmissionLe := fun a b => by
  unfold specSubmissionLe; infer_instance

/-- The cache sorted as the specification describes it. -/
def specSubmissionSort (l : List Brdict) : List Brdict :=
  List.insertionSort specSubmissionLe l

/-- A store for which submission-time order and id order disagree:
request 1 was submitted at time 5, request 2 at time 1. -/
def lateIdStore : List Brdict :=
  [⟨2, 0, 0, 1, false⟩, ⟨1, 0, 0, 5, false⟩]

/-- A resolver for which entry 1 of the cache fails to resolve and every
other entry succeeds. -/
def failFirstResolve : Brdict → Except Unit (Option BReq) := fun brd =>
  if brd.buildrequestid = 1 then .error () else .ok (some (breqOfBrdict brd))

/-- A two-entry cache whose first entry fails under `failFirstResolve`. -/
def twoEntryCache : List Brdict :=
  [⟨1, 10, 0, 0, false⟩, ⟨2, 11, 0, 0, false⟩]

/-- The scenario of the second part of claim C1: two unclaimed requests,
a worker pool of size two, a next-worker policy that always returns
worker 1, and a `canStartBuild` that rejects everything. -/
def constPolicyEnv : ChooserEnv :=
  { store := [⟨1, 0, 0, 0, false⟩, ⟨2, 0, 0, 0, false⟩]
    availableWorkers := [1, 2]
    nextWorker := fun _ _ => some 1
    canStartBuild := fun _ _ => false
    nextBuild := none
    resolveOk := fun _ => true }

/-- A minimal environment for exercising worker recycling: one request,
three available workers, a policy that drains the pool front-to-back, and
a `canStartBuild` that rejects everything. -/
def recyclingEnv : ChooserEnv :=
  { store := [⟨1, 0, 0, 0, false⟩]
    availableWorkers := [4, 5, 6]
    nextWorker := fun pool _ => pool.head?
    canStartBuild := fun _ _ => false
    nextBuild := none
    resolveOk := fun _ => true }

/-! ## General lemmas about the dictionary model -/

theorem dictLookup_dictErase (l : List (Nat × α)) (k : Nat) :
    dictLookup (dictErase l k) k = none := by
  induction l with
  | nil => rfl
  | cons p ps ih =>
    by_cases hp : p.1 = k
    · simpa [dictErase, List.filter_cons, hp] using ih
    · simpa [dictErase, List.filter_cons, hp, dictLookup] using ih

theorem dictLookup_dictErase_ne (l : List (Nat × α)) (k k2 : Nat) (h : k2 ≠ k) :
    dictLookup (dictErase l k) k2 = dictLookup l k2 := by
  induction l with
  | nil => rfl
  | cons p ps ih =>
    by_cases hp : p.1 = k
    · have h2 : ¬ (k = k2) := fun he => h he.symm
      simpa [dictErase, List.filter_cons, hp, dictLookup, h2] using ih
    · by_cases h2 : p.1 = k2
      · simp [dictErase, List.filter_cons, hp, dictLookup, h2, h]
      · simpa [dictErase, List.filter_cons, hp, dictLookup, h2, h] using ih

theorem dictLookup_map_replace (l : List (Nat × α)) (k k2 : Nat) (v : α)
    (h : k2 ≠ k) :
    dictLookup (l.map (fun p => if p.1 = k then (k, v) else p)) k2 =
      dictLookup l k2 := by
  induction l with
  | nil => rfl
  | cons p ps ih =>
    by_cases hp : p.1 = k
    · have h2 : ¬ (k = k2) := fun he => h he.symm
      simp [dictLookup, hp, h2, ih]
    · by_cases h2 : p.1 = k2
      · simp [dictLookup, hp, h2, h]
      · simp [dictLookup, hp, h2, ih]

theorem dictLookup_append_single_ne (l : List (Nat × α)) (k k2 : Nat) (v : α)
    (h : k2 ≠ k) :
    dictLookup (l ++ [(k, v)]) k2 = dictLookup l k2 := by
  induction l with
  | nil => simp [dictLookup, Ne.symm h]
  | cons p ps ih =>
    by_cases h2 : p.1 = k2
    · simp [dictLookup, h2]
    · simp [dictLookup, h2, ih]

theorem dictLookup_dictInsert_ne (l : List (Nat × α)) (k k2 : Nat) (v : α)
    (h : k2 ≠ k) : dictLookup (dictInsert l k v) k2 = dictLookup l k2 := by
  unfold dictInsert
  split
  · exact dictLookup_map_replace l k k2 v h
  · exact dictLookup_append_single_ne l k k2 v h

theorem updateWaiters_waiters (st : TriggerableState) :
    (updateWaiters st).waiters = st.waiters := by
  unfold updateWaiters
  split
  · rfl
  · split <;> rfl

/-! ## Claim C4: the "builders need attention" short circuit -/

/-- Claim C4 (corrected: the source's short circuit is a *strict* subset
test): for every call to `_maybeStartBuildsOn` whose set of new builder
names is a strict subset of the current pending-builder set, the call
returns as a no-op — the state (pending list and activity flag) is
untouched and no activity loop is started. -/
theorem C4_signal_strict_subset_noop (sortNames : List String → List String)
    (st : DistributorPendingState) (newBuilders : List String)
    (h : newBuilders.toFinset < st.pendingBuilders.toFinset) :
    maybeStartBuildsOn sortNames st newBuilders = (st, false) := by
  simp [maybeStartBuildsOn, h]

/-- Witness for C4 at a concrete input: {"a"} is a strict subset of
{"a", "b"}, and the signal is a no-op there. -/
theorem C4_signal_strict_subset_noop_witness :
    (["a"] : List String).toFinset < (["a", "b"] : List String).toFinset ∧
    maybeStartBuildsOn id ⟨["a", "b"], false⟩ ["a"] = (⟨["a", "b"], false⟩, false) :=
  ⟨by decide, C4_signal_strict_subset_noop id ⟨["a", "b"], false⟩ ["a"] (by decide)⟩

/-- Counterexample to claim C4 as stated: the claim speaks of any subset,
but when the new names equal the pending set (a subset, though not a
strict one) the call is not a no-op — with the loop inactive it starts
the activity loop (and rebuilds the pending list). -/
theorem C4_counterexample :
    (["a"] : List String).toFinset ⊆ (["a"] : List String).toFinset ∧
    (maybeStartBuildsOn id ⟨["a"], false⟩ ["a"]).2 = true ∧
    (maybeStartBuildsOn id ⟨["a"], false⟩ ["a"]).1.active = true := by
  decide

/-! ## Claim C2: in-progress marking versus claim failure -/

/-- Claim C2 is violated by the source: `_add_in_progress_brids` runs
*before* `claimBuildRequests`, and the claim-failure path (`bc` replaced
by a fresh chooser, `continue`) does not remove the ids again.  At the
concrete failing input — one request with id 1, empty prior in-progress
set, store reports the id already claimed — the iteration ends with id 1
still marked in progress, while the claim requires the set to be left
unchanged (empty).  The fresh-chooser/restart part of the claim does
hold. -/
theorem C2_claim_failure_leaves_id_marked :
    (maybeStartBuildsOnBuilderStep "distributor" ⟨"builderA"⟩ false
        (fun _ => false) (some (0, [⟨1, 10, 5, false⟩])) false true ∅).inProgress
      = {1} ∧
    (maybeStartBuildsOnBuilderStep "distributor" ⟨"builderA"⟩ false
        (fun _ => false) (some (0, [⟨1, 10, 5, false⟩])) false true ∅).outcome
      = .claimFailedRetry ∧
    (maybeStartBuildsOnBuilderStep "distributor" ⟨"builderA"⟩ false
        (fun _ => false) (some (0, [⟨1, 10, 5, false⟩])) false true ∅).freshChooser
      = true := by
  decide

/-! ## Claim C5: the declined-start recovery path -/

/-- Claim C5 is violated by the source in its re-signal part: on a
declined start the claimed ids are unclaimed and the in-progress markers
cleared as claimed, but the re-signal passes `self.name` — the
distributor service's own name — to `maybeStartBuildsForBuilder`, not the
builder's name, so the builder (here "builderA") is not re-signalled. -/
theorem C5_resignal_uses_distributor_name :
    (maybeStartBuildsOnBuilderStep "buildrequestdistributor" ⟨"builderA"⟩ false
        (fun _ => false) (some (0, [⟨1, 10, 5, false⟩])) true false ∅).unclaimedIds
      = [1] ∧
    (maybeStartBuildsOnBuilderStep "buildrequestdistributor" ⟨"builderA"⟩ false
        (fun _ => false) (some (0, [⟨1, 10, 5, false⟩])) true false ∅).inProgress
      = ∅ ∧
    (maybeStartBuildsOnBuilderStep "buildrequestdistributor" ⟨"builderA"⟩ false
        (fun _ => false) (some (0, [⟨1, 10, 5, false⟩])) true false ∅).resignalledNames
      = ["buildrequestdistributor"] ∧
    "buildrequestdistributor" ≠ "builderA" := by
  decide

/-! ## Claim C6: the default builder sorter -/

/-- Claim C6: the default sorter orders builders by the key
`(-highest_pending_priority, oldest_pending_request_time, name)` — the
output is sorted by that (lexicographic) key and is a permutation of the
input; builders with no pending requests get key components `⊤` and come
last.  On the concrete builders A (priority 10, oldest t=5), B (priority
10, oldest t=1), C (no pending requests), the result is [B, A, C]. -/
theorem C6_default_sorter_key_order (builders : List SortBuilder) :
    List.Sorted defaultSorterLe (defaultSorter builders) ∧
    (defaultSorter builders).Perm builders ∧
    defaultSorter
        [⟨"A", some 10, some 5⟩, ⟨"B", some 10, some 1⟩, ⟨"C", none, none⟩] =
      [⟨"B", some 10, some 1⟩, ⟨"A", some 10, some 5⟩, ⟨"C", none, none⟩] :=
  ⟨List.sorted_insertionSort defaultSorterLe builders,
   List.perm_insertionSort defaultSorterLe builders, by decide⟩

/-! ## Claim C9: the Triggerable wait registry -/

/-- Claim C9: delivering a completion event for a registered buildset id
fires the registered deferred exactly once with `(results, brids)` and
removes the waiter; re-delivering the same event afterwards is a no-op,
and a completion event for an unregistered buildset id leaves the state
unchanged and fires nothing. -/
theorem C9_buildset_complete_exactly_once (st : TriggerableState)
    (msg : BuildsetCompleteMsg) :
    (∀ d brids, dictLookup st.waiters msg.bsid = some (d, brids) →
      (buildsetCompleteCb st msg).2 = some (d, (msg.results, brids)) ∧
      dictLookup (buildsetCompleteCb st msg).1.waiters msg.bsid = none ∧
      buildsetCompleteCb (buildsetCompleteCb st msg).1 msg =
        ((buildsetCompleteCb st msg).1, none)) ∧
    (dictLookup st.waiters msg.bsid = none →
      buildsetCompleteCb st msg = (st, none)) := by
  have hnone : ∀ s : TriggerableState, dictLookup s.waiters msg.bsid = none →
      buildsetCompleteCb s msg = (s, none) := by
    intro s hs
    unfold buildsetCompleteCb
    rw [hs]
  refine ⟨?_, hnone st⟩
  intro d brids h
  have hcb : buildsetCompleteCb st msg =
      (updateWaiters { st with waiters := dictErase st.waiters msg.bsid },
       some (d, (msg.results, brids))) := by
    unfold buildsetCompleteCb
    rw [h]
  have hW : dictLookup (buildsetCompleteCb st msg).1.waiters msg.bsid = none := by
    rw [hcb, updateWaiters_waiters]
    exact dictLookup_dictErase _ _
  exact ⟨by rw [hcb], hW, hnone _ hW⟩

/-- Witness for C9 at a concrete input: register a wait on buildset 100
(deferred 0, request ids [7, 8]), then deliver a completion event with
results 3: the deferred fires with `(3, [7, 8])`. -/
theorem C9_buildset_complete_exactly_once_witness :
    (dictLookup (setupWaiter ⟨[], false⟩ 100 0 [7, 8]).waiters 100
        = some (0, [7, 8])) ∧
    (buildsetCompleteCb (setupWaiter ⟨[], false⟩ 100 0 [7, 8]) ⟨100, 3⟩).2
        = some (0, (3, [7, 8])) :=
  ⟨by decide,
   ((C9_buildset_complete_exactly_once (setupWaiter ⟨[], false⟩ 100 0 [7, 8])
      ⟨100, 3⟩).1 0 [7, 8] (by decide)).1⟩

/-! ## Claim C3: failure isolation in the resolution fan-out -/

/-- Counterexample to claim C3: `_getUnclaimedBuildRequests` combines the
per-entry deferreds with `defer.gatherResults(..., consumeErrors=True)`,
which fails as a whole as soon as one entry fails.  On a two-entry cache
whose first entry fails to resolve, the caller receives the failure —
entry 2's successfully resolved request is discarded, not returned. -/
theorem C3_counterexample :
    getUnclaimedBuildRequestsGather failFirstResolve twoEntryCache = .error () ∧
    failFirstResolve ⟨2, 11, 0, 0, false⟩ = .ok (some ⟨2, 11, 0, false⟩) :=
  ⟨rfl, rfl⟩

/-- Claim C3 (corrected): the fan-out is all-or-nothing, not isolated per
item.  If every entry resolves, the batch yields the list of per-entry
results; if any entry fails, the whole batch fails and the failure
propagates to the caller (`consumeErrors=True` only suppresses
unhandled-error logging of the remaining failures). -/
theorem C3_gather_aborts_batch (resolve : Brdict → Except Unit (Option BReq))
    (cache : List Brdict) :
    ((∀ brd ∈ cache, (resolve brd).isOk = true) →
      getUnclaimedBuildRequestsGather resolve cache =
        .ok (cache.map (fun brd => (resolve brd).toOption.getD none))) ∧
    ((∃ brd ∈ cache, (resolve brd).isOk = false) →
      getUnclaimedBuildRequestsGather resolve cache = .error ()) := by
  unfold getUnclaimedBuildRequestsGather
  induction cache with
  | nil =>
    refine ⟨fun _ => rfl, ?_⟩
    rintro ⟨brd, hmem, -⟩
    cases hmem
  | cons b bs ih =>
    constructor
    · intro hall
      have hb := hall b (List.mem_cons_self b bs)
      rcases hr : resolve b with e | a
      · rw [hr] at hb
        simp [Except.isOk, Except.toBool] at hb
      · have hrest := ih.1 (fun brd hm => hall brd (List.mem_cons_of_mem b hm))
        simp only [List.map_cons, gatherResults, hr, hrest, Except.map, hr]
        rfl
    · rintro ⟨brd, hmem, hbad⟩
      rcases List.mem_cons.mp hmem with he | hm
      · subst he
        rcases hr : resolve brd with e | a
        · simp only [List.map_cons, gatherResults, hr]
        · rw [hr] at hbad
          simp [Except.isOk, Except.toBool] at hbad
      · rcases hr : resolve b with e | a
        · simp only [List.map_cons, gatherResults, hr]
        · have hrest := ih.2 ⟨brd, hm, hbad⟩
          simp only [List.map_cons, gatherResults, hr, hrest, Except.map]

/-- Witness for C3's corrected statement: the two-entry cache whose first
entry fails makes the whole batch fail. -/
theorem C3_gather_aborts_batch_witness :
    getUnclaimedBuildRequestsGather failFirstResolve twoEntryCache = .error () :=
  (C3_gather_aborts_batch failFirstResolve twoEntryCache).2
    ⟨⟨1, 10, 0, 0, false⟩, by decide, by rfl⟩

/-! ## Claim C8: the unclaimed-request cache fetch -/

/-- Counterexample to claim C8 as stated ("sorted by submission order,
with ties in submission time broken by request id"): the source sorts by
request id alone and never consults the submission timestamp.  On a store
where request 1 was submitted at time 5 and request 2 at time 1, the
fetch returns them in id order, not in the submission-time order the
claim describes. -/
theorem C8_counterexample :
    (fetchUnclaimedBrdicts lateIdStore ⟨none, [], [], []⟩).1
      ≠ specSubmissionSort lateIdStore ∧
    (fetchUnclaimedBrdicts lateIdStore ⟨none, [], [], []⟩).1
      = [⟨1, 0, 0, 5, false⟩, ⟨2, 0, 0, 1, false⟩] ∧
    specSubmissionSort lateIdStore
      = [⟨2, 0, 0, 1, false⟩, ⟨1, 0, 0, 5, false⟩] := by
  decide

/-- Claim C8 (corrected): the fetch queries the store only when the cache
is absent, stores and returns the entries sorted by ascending request id
(the source comments "sort by buildrequestid, so the first is the
oldest", equating id order with submission order), returns the memoized
list without querying while the cache is present, and queries again after
the cache is invalidated by setting it to `None`. -/
theorem C8_fetch_id_sorted_memoized (store : List Brdict)
    (bc : List (Nat × BReq)) (wp pw : List Worker) (st : ChooserState) :
    fetchUnclaimedBrdicts store ⟨none, bc, wp, pw⟩ =
      (List.insertionSort brdictIdLe store,
       ⟨some (List.insertionSort brdictIdLe store), bc, wp, pw⟩, true) ∧
    List.Sorted brdictIdLe (fetchUnclaimedBrdicts store ⟨none, bc, wp, pw⟩).1 ∧
    (fetchUnclaimedBrdicts store ⟨none, bc, wp, pw⟩).1.Perm store ∧
    (∀ cached, fetchUnclaimedBrdicts store ⟨some cached, bc, wp, pw⟩ =
      (cached, ⟨some cached, bc, wp, pw⟩, false)) ∧
    (fetchUnclaimedBrdicts store (invalidateBrdictCache st)).2.2 = true :=
  ⟨rfl, List.sorted_insertionSort brdictIdLe store,
   List.perm_insertionSort brdictIdLe store, fun _ => rfl, rfl⟩

/-! ## Structural lemmas about the chooser -/

theorem dictLookup_mem (l : List (Nat × α)) (k : Nat) (v : α)
    (h : dictLookup l k = some v) : (k, v) ∈ l := by
  induction l with
  | nil => cases h
  | cons p ps ih =>
    obtain ⟨a, b⟩ := p
    by_cases hp : a = k
    · simp only [dictLookup, hp, if_true] at h
      injection h with hb
      subst hb
      subst hp
      exact List.mem_cons_self (a, b) ps
    · simp only [dictLookup, hp, if_false] at h
      exact List.mem_cons_of_mem (a, b) (ih h)

theorem mem_dictInsert (l : List (Nat × α)) (k : Nat) (v : α) (p : Nat × α)
    (h : p ∈ dictInsert l k v) : p = (k, v) ∨ p ∈ l := by
  unfold dictInsert at h
  split at h
  · rcases List.mem_map.mp h with ⟨q, hq, he⟩
    by_cases hqk : q.1 = k
    · simp only [hqk, if_true] at he
      exact Or.inl he.symm
    · simp only [hqk, if_false] at he
      exact Or.inr (he ▸ hq)
  · rcases List.mem_append.mp h with hl | hr
    · exact Or.inr hl
    · simp only [List.mem_singleton] at hr
      exact Or.inl hr

theorem mem_dictErase (l : List (Nat × α)) (k : Nat) (p : Nat × α)
    (h : p ∈ dictErase l k) : p ∈ l :=
  List.mem_of_mem_filter h

/-- `_popNextWorker` only touches the two worker pools: the unclaimed
cache and the resolved-request memo are untouched. -/
theorem popNextWorker_cache_eq (env : ChooserEnv) (st : ChooserState)
    (breq : BReq) :
    (popNextWorker env st breq).2.1.unclaimedBrdicts = st.unclaimedBrdicts ∧
    (popNextWorker env st breq).2.1.breqCache = st.breqCache := by
  obtain ⟨u, bc, wp, pw⟩ := st
  rcases pw with _ | ⟨w, rest⟩
  · rcases wp with _ | ⟨q, qs⟩
    · exact ⟨rfl, rfl⟩
    · simp only [popNextWorker]
      rcases hn : env.nextWorker (q :: qs) breq with _ | w2
      · exact ⟨rfl, rfl⟩
      · dsimp only
        split <;> exact ⟨rfl, rfl⟩
  · exact ⟨rfl, rfl⟩

/-- The inner feasibility loop likewise only touches the worker pools. -/
theorem findUsableWorker_cache_eq (env : ChooserEnv) (breq : BReq) :
    ∀ st w acc,
      (findUsableWorker env breq st w acc).2.1.unclaimedBrdicts
        = st.unclaimedBrdicts ∧
      (findUsableWorker env breq st w acc).2.1.breqCache = st.breqCache := by
  intro st w acc
  induction st, w, acc using findUsableWorker.induct env breq with
  | case1 st w acc hcs =>
    rw [findUsableWorker, if_pos hcs]
    exact ⟨rfl, rfl⟩
  | case2 st w acc hcs w2 st2 n hpop ih =>
    have hc := popNextWorker_cache_eq env st breq
    rw [hpop] at hc
    rw [findUsableWorker, if_neg hcs, hpop]
    exact ⟨ih.1.trans hc.1, ih.2.trans hc.2⟩
  | case3 st w acc hcs st2 n hpop =>
    have hc := popNextWorker_cache_eq env st breq
    rw [hpop] at hc
    rw [findUsableWorker, if_neg hcs, hpop]
    exact hc

/-- The facts behind claim C7 at the level of the inner loop: when the
feasibility loop fails, the recycled list begins with the first offered
worker and contains (beyond the accumulator) only workers rejected by
`canStartBuild`. -/
theorem findUsableWorker_recycled (env : ChooserEnv) (breq : BReq) :
    ∀ st w acc,
      ((findUsableWorker env breq st w acc).1 = none →
        ∃ tl, (findUsableWorker env breq st w acc).2.2.1 = acc ++ w :: tl) ∧
      (∀ x, x ∈ (findUsableWorker env breq st w acc).2.2.1 →
        x ∈ acc ∨ env.canStartBuild x breq = false) := by
  intro st w acc
  induction st, w, acc using findUsableWorker.induct env breq with
  | case1 st w acc hcs =>
    rw [findUsableWorker, if_pos hcs]
    exact ⟨fun h => Option.noConfusion h, fun x hx => Or.inl hx⟩
  | case2 st w acc hcs w2 st2 n hpop ih =>
    rw [findUsableWorker, if_neg hcs, hpop]
    constructor
    · intro h
      rcases ih.1 h with ⟨tl, htl⟩
      exact ⟨w2 :: tl, by simpa using htl⟩
    · intro x hx
      rcases ih.2 x hx with hacc | hrej
      · rcases List.mem_append.mp hacc with h1 | h2
        · exact Or.inl h1
        · simp only [List.mem_singleton] at h2
          subst h2
          exact Or.inr (Bool.eq_false_iff.mpr hcs)
      · exact Or.inr hrej
  | case3 st w acc hcs st2 n hpop =>
    rw [findUsableWorker, if_neg hcs, hpop]
    constructor
    · intro _
      exact ⟨[], rfl⟩
    · intro x hx
      rcases List.mem_append.mp hx with h1 | h2
      · exact Or.inl h1
      · simp only [List.mem_singleton] at h2
        subst h2
        exact Or.inr (Bool.eq_false_iff.mpr hcs)

/-! ## Claim C7: recycled workers are offered first -/

/-- Claim C7: a worker rejected by the feasibility check ends up in the
recycled list (together with every other rejected worker, and nothing
else beyond what was already recycled), `_unpopWorkers` pushes that list
onto the *front* of the preferred list preserving its order, and
`_popNextWorker` serves the preferred list front-first without invoking
the next-worker policy or touching the fresh pool, so all recycled
workers are offered before any untried fresh worker. -/
theorem C7_recycled_offered_before_fresh (env : ChooserEnv)
    (st : ChooserState) (breq : BReq) (w : Worker) (rest : List Worker) :
    (st.preferredWorkers = w :: rest →
      popNextWorker env st breq =
        (some w, { st with preferredWorkers := rest }, 0)) ∧
    (∀ workers, unpopWorkers st workers =
      { st with preferredWorkers := workers ++ st.preferredWorkers }) ∧
    (∀ w0, (findUsableWorker env breq st w0 []).1 = none →
      (findUsableWorker env breq st w0 []).2.2.1.head? = some w0 ∧
      ∀ x ∈ (findUsableWorker env breq st w0 []).2.2.1,
        env.canStartBuild x breq = false) := by
  refine ⟨?_, fun workers => rfl, ?_⟩
  · intro h
    unfold popNextWorker
    rw [h]
  · intro w0 hnone
    have hr := findUsableWorker_recycled env breq st w0 []
    constructor
    · rcases hr.1 hnone with ⟨tl, htl⟩
      rw [htl]
      rfl
    · intro x hx
      rcases hr.2 x hx with hacc | hrej
      · cases hacc
      · exact hrej

/-- Witness for C7 at concrete inputs: with preferred workers [5, 6] and
fresh pool [7], the pop returns 5 without touching the pool and without a
policy invocation; and a failing feasibility pass starting from worker 9
recycles [9, 5, 6, 7] in order, all rejected. -/
theorem C7_recycled_offered_before_fresh_witness :
    popNextWorker recyclingEnv ⟨none, [], [7], [5, 6]⟩ ⟨1, 0, 0, false⟩ =
      (some 5, ⟨none, [], [7], [6]⟩, 0) ∧
    (findUsableWorker recyclingEnv ⟨1, 0, 0, false⟩ ⟨none, [], [7], [5, 6]⟩
        9 []).2.2.1.head? = some 9 := by
  have h := C7_recycled_offered_before_fresh recyclingEnv
    ⟨none, [], [7], [5, 6]⟩ ⟨1, 0, 0, false⟩ 5 [6]
  refine ⟨h.1 rfl, ?_⟩
  refine (h.2.2 9 ?_).1
  simp [findUsableWorker, popNextWorker, recyclingEnv]

/-- If the ids of a list are `Nodup`, erasing a member removes its id
from the mapped ids entirely. -/
theorem id_not_mem_map_erase (f : Brdict → Nat) (cache : List Brdict)
    (brdX : Brdict) (hnodup : (cache.map f).Nodup) (hmem : brdX ∈ cache) :
    f brdX ∉ (cache.erase brdX).map f := by
  induction cache with
  | nil => cases hmem
  | cons c cs ih =>
    by_cases hc : c = brdX
    · subst hc
      rw [List.erase_cons_head]
      simp only [List.map_cons, List.nodup_cons] at hnodup
      exact hnodup.1
    · have hmem2 : brdX ∈ cs := by
        rcases List.mem_cons.mp hmem with he | hm
        · exact absurd he.symm hc
        · exact hm
      rw [List.erase_cons_tail]
      · simp only [List.map_cons, List.nodup_cons] at hnodup
        simp only [List.map_cons, List.mem_cons]
        rintro (he | hm)
        · exact hnodup.1 (he ▸ List.mem_map_of_mem f hmem2)
        · exact ih hnodup.2 hmem2 hm
      · simp [hc]

/-- `_fetchUnclaimedBrdicts` in terms of the effective cache: it returns
the effective cache, stores it, and queries the store only when the cache
was absent. -/
theorem fetchUnclaimedBrdicts_eq (env : ChooserEnv) (st : ChooserState) :
    fetchUnclaimedBrdicts env.store st =
      (currentBrdicts env st,
       { st with unclaimedBrdicts := some (currentBrdicts env st) },
       st.unclaimedBrdicts.isNone) := by
  obtain ⟨u, bc, wp, pw⟩ := st
  rcases u with _ | cached <;> simp [fetchUnclaimedBrdicts, currentBrdicts]

/-- What `_getBuildRequestForBrdict` does to the state: nothing outside
the memo; memo lookups at other ids are unchanged; memo well-formedness
is preserved; and under memo well-formedness a returned request carries
the brdict's id. -/
theorem getBuildRequestForBrdict_props (env : ChooserEnv) (st : ChooserState)
    (brd : Brdict) :
    (getBuildRequestForBrdict env st brd).2.unclaimedBrdicts
        = st.unclaimedBrdicts ∧
    (getBuildRequestForBrdict env st brd).2.workerpool = st.workerpool ∧
    (getBuildRequestForBrdict env st brd).2.preferredWorkers
        = st.preferredWorkers ∧
    (∀ id, id ≠ brd.buildrequestid →
      dictLookup (getBuildRequestForBrdict env st brd).2.breqCache id
        = dictLookup st.breqCache id) ∧
    (WfBreqCache st → WfBreqCache (getBuildRequestForBrdict env st brd).2) ∧
    (WfBreqCache st → ∀ b, (getBuildRequestForBrdict env st brd).1 = some b →
      b.id = brd.buildrequestid) := by
  rcases hl : dictLookup st.breqCache brd.buildrequestid with _ | breq
  · by_cases hr : env.resolveOk brd = true
    · have hgb : getBuildRequestForBrdict env st brd =
          (some (breqOfBrdict brd),
           { st with breqCache :=
               dictInsert st.breqCache brd.buildrequestid (breqOfBrdict brd) }) := by
        unfold getBuildRequestForBrdict
        rw [hl]
        simp [hr]
      rw [hgb]
      refine ⟨rfl, rfl, rfl, ?_, ?_, ?_⟩
      · intro id hid
        exact dictLookup_dictInsert_ne _ _ _ _ hid
      · intro hwf p hp
        rcases mem_dictInsert _ _ _ _ hp with he | hm
        · rw [he]
          rfl
        · exact hwf p hm
      · intro _ b hb
        injection hb with hb2
        rw [← hb2]
        rfl
    · have hgb : getBuildRequestForBrdict env st brd = (none, st) := by
        unfold getBuildRequestForBrdict
        rw [hl]
        simp [hr]
      rw [hgb]
      exact ⟨rfl, rfl, rfl, fun _ _ => rfl, fun hwf => hwf,
        fun _ b hb => Option.noConfusion hb⟩
  · have hgb : getBuildRequestForBrdict env st brd = (some breq, st) := by
      unfold getBuildRequestForBrdict
      rw [hl]
    rw [hgb]
    refine ⟨rfl, rfl, rfl, fun _ _ => rfl, fun hwf => hwf, ?_⟩
    intro hwf b hb
    injection hb with hb2
    rw [← hb2]
    exact hwf (brd.buildrequestid, breq) (dictLookup_mem _ _ _ hl)

/-- What the resolution fan-out `_getUnclaimedBuildRequests` does to the
state, and the provenance of its results. -/
theorem getUnclaimedBuildRequests_props (env : ChooserEnv) :
    ∀ (cacheList : List Brdict) (st : ChooserState),
      (getUnclaimedBuildRequests env st cacheList).2.unclaimedBrdicts
          = st.unclaimedBrdicts ∧
      (getUnclaimedBuildRequests env st cacheList).2.workerpool
          = st.workerpool ∧
      (getUnclaimedBuildRequests env st cacheList).2.preferredWorkers
          = st.preferredWorkers ∧
      (∀ id, id ∉ cacheList.map (fun brd => brd.buildrequestid) →
        dictLookup (getUnclaimedBuildRequests env st cacheList).2.breqCache id
          = dictLookup st.breqCache id) ∧
      (WfBreqCache st →
        WfBreqCache (getUnclaimedBuildRequests env st cacheList).2) ∧
      (WfBreqCache st →
        ∀ b, (some b) ∈ (getUnclaimedBuildRequests env st cacheList).1 →
          ∃ brd ∈ cacheList, b.id = brd.buildrequestid) := by
  intro cacheList
  induction cacheList with
  | nil =>
    intro st
    exact ⟨rfl, rfl, rfl, fun _ _ => rfl, fun hwf => hwf,
      fun _ b hb => absurd hb (by simp [getUnclaimedBuildRequests])⟩
  | cons brd rest ih =>
    intro st
    rcases hg : getBuildRequestForBrdict env st brd with ⟨r, st1⟩
    have hp := getBuildRequestForBrdict_props env st brd
    rw [hg] at hp
    rcases hrec : getUnclaimedBuildRequests env st1 rest with ⟨rs, st2⟩
    have hih := ih st1
    rw [hrec] at hih
    have hunf : getUnclaimedBuildRequests env st (brd :: rest) = (r :: rs, st2) := by
      simp only [getUnclaimedBuildRequests, hg, hrec]
    rw [hunf]
    refine ⟨hih.1.trans hp.1, hih.2.1.trans hp.2.1, hih.2.2.1.trans hp.2.2.1,
      ?_, ?_, ?_⟩
    · intro id hid
      simp only [List.map_cons, List.mem_cons] at hid
      push_neg at hid
      exact (hih.2.2.2.1 id hid.2).trans (hp.2.2.2.1 id hid.1)
    · intro hwf
      exact hih.2.2.2.2.1 (hp.2.2.2.2.1 hwf)
    · intro hwf b hb
      rcases List.mem_cons.mp hb with he | hm
      · exact ⟨brd, List.mem_cons_self brd rest,
          hp.2.2.2.2.2 hwf b he.symm⟩
      · rcases hih.2.2.2.2.2 (hp.2.2.2.2.1 hwf) b hm with ⟨brd2, hbrd2, hid2⟩
        exact ⟨brd2, List.mem_cons_of_mem brd hbrd2, hid2⟩

/-- What `_getNextUnclaimedBuildRequest` does to the state: after it, the
cache is fetched and unchanged (as a list), the worker pools are
untouched, memo lookups at ids outside the cache are unchanged, memo
well-formedness is preserved, and any returned request has an id that is
present in the cache. -/
theorem getNextUnclaimedBuildRequest_props (env : ChooserEnv)
    (st : ChooserState) :
    (getNextUnclaimedBuildRequest env st).2.unclaimedBrdicts
        = some (currentBrdicts env st) ∧
    (getNextUnclaimedBuildRequest env st).2.workerpool = st.workerpool ∧
    (getNextUnclaimedBuildRequest env st).2.preferredWorkers
        = st.preferredWorkers ∧
    (∀ id, id ∉ currentCacheIds env st →
      dictLookup (getNextUnclaimedBuildRequest env st).2.breqCache id
        = dictLookup st.breqCache id) ∧
    (WfBreqCache st → WfBreqCache (getNextUnclaimedBuildRequest env st).2) ∧
    (WfBreqCache st → ∀ b, (getNextUnclaimedBuildRequest env st).1 = some b →
      b.id ∈ currentCacheIds env st) := by
  have hfetch := fetchUnclaimedBrdicts_eq env st
  have hunf : getNextUnclaimedBuildRequest env st =
      (if (currentBrdicts env st).isEmpty then
        (none, { st with unclaimedBrdicts := some (currentBrdicts env st) })
      else
        match env.nextBuild with
        | some policy =>
          let (breqs, st2) := getUnclaimedBuildRequests env
            { st with unclaimedBrdicts := some (currentBrdicts env st) }
            (currentBrdicts env st)
          let nextBreq :=
            match policy breqs with
            | some r => if (some r) ∈ breqs then some r else none
            | none => none
          (nextBreq, st2)
        | none =>
          match (List.insertionSort brdictPriorityGe
              (currentBrdicts env st)).head? with
          | some brdict => getBuildRequestForBrdict env
              { st with unclaimedBrdicts := some (currentBrdicts env st) } brdict
          | none =>
            (none, { st with unclaimedBrdicts := some (currentBrdicts env st) })) := by
    unfold getNextUnclaimedBuildRequest
    rw [hfetch]
  rw [hunf]
  by_cases hemp : (currentBrdicts env st).isEmpty = true
  · rw [if_pos hemp]
    exact ⟨rfl, rfl, rfl, fun _ _ => rfl, fun hwf => hwf,
      fun _ b hb => Option.noConfusion hb⟩
  · rw [if_neg hemp]
    rcases hnb : env.nextBuild with _ | policy
    · rcases hsort : (List.insertionSort brdictPriorityGe
          (currentBrdicts env st)).head? with _ | brd
      · exact ⟨rfl, rfl, rfl, fun _ _ => rfl, fun hwf => hwf,
          fun _ b hb => Option.noConfusion hb⟩
      · have hmem : brd ∈ currentBrdicts env st :=
          (List.perm_insertionSort brdictPriorityGe
            (currentBrdicts env st)).subset (List.mem_of_mem_head? hsort)
        have hid : brd.buildrequestid ∈ currentCacheIds env st :=
          List.mem_map_of_mem _ hmem
        have hp := getBuildRequestForBrdict_props env
          { st with unclaimedBrdicts := some (currentBrdicts env st) } brd
        refine ⟨hp.1, hp.2.1, hp.2.2.1, ?_, ?_, ?_⟩
        · intro id hidc
          refine (hp.2.2.2.1 id ?_)
          intro he
          exact hidc (he ▸ hid)
        · intro hwf
          exact hp.2.2.2.2.1 hwf
        · intro hwf b hb
          rw [hp.2.2.2.2.2 hwf b hb]
          exact hid
    · rcases hres : getUnclaimedBuildRequests env
          { st with unclaimedBrdicts := some (currentBrdicts env st) }
          (currentBrdicts env st) with ⟨breqs, st2⟩
      have hp := getUnclaimedBuildRequests_props env (currentBrdicts env st)
        { st with unclaimedBrdicts := some (currentBrdicts env st) }
      rw [hres] at hp
      have hstate : st2.unclaimedBrdicts = some (currentBrdicts env st) ∧
          st2.workerpool = st.workerpool ∧
          st2.preferredWorkers = st.preferredWorkers ∧
          (∀ id, id ∉ currentCacheIds env st →
            dictLookup st2.breqCache id = dictLookup st.breqCache id) ∧
          (WfBreqCache st → WfBreqCache st2) :=
        ⟨hp.1, hp.2.1, hp.2.2.1, fun id hid => hp.2.2.2.1 id hid,
         fun hwf => hp.2.2.2.2.1 hwf⟩
      have hprov := hp.2.2.2.2.2
      rcases hpol : policy breqs with _ | r
      · simp only [hres, hpol]
        exact ⟨hstate.1, hstate.2.1, hstate.2.2.1, hstate.2.2.2.1,
          hstate.2.2.2.2, fun _ b hb => Option.noConfusion hb⟩
      · by_cases hm : (some r) ∈ breqs
        · simp only [hres, hpol, hm, if_true]
          refine ⟨hstate.1, hstate.2.1, hstate.2.2.1, hstate.2.2.2.1,
            hstate.2.2.2.2, ?_⟩
          intro hwf b hb
          injection hb with hb2
          rw [← hb2]
          rcases hprov hwf r hm with ⟨brd, hbrd, hbid⟩
          rw [hbid]
          exact List.mem_map_of_mem _ hbrd
        · simp only [hres, hpol, hm, if_false]
          exact ⟨hstate.1, hstate.2.1, hstate.2.2.1, hstate.2.2.2.1,
            hstate.2.2.2.2, fun _ b hb => Option.noConfusion hb⟩

/-- What `_removeBuildRequest` does: worker pools untouched, the memo
entry of the request dropped (other entries unchanged), and the cache
loses (at most) the first brdict carrying the request's id — a sublist of
the old cache; when cache ids are unique the id is gone entirely, and
when some cached brdict carries the id the cache shrinks by exactly one
entry. -/
theorem removeBuildRequest_props (st : ChooserState) (breq : BReq) :
    (removeBuildRequest st breq).workerpool = st.workerpool ∧
    (removeBuildRequest st breq).preferredWorkers = st.preferredWorkers ∧
    dictLookup (removeBuildRequest st breq).breqCache breq.id = none ∧
    (∀ id, id ≠ breq.id →
      dictLookup (removeBuildRequest st breq).breqCache id
        = dictLookup st.breqCache id) ∧
    (WfBreqCache st → WfBreqCache (removeBuildRequest st breq)) ∧
    ∃ cache2, (removeBuildRequest st breq).unclaimedBrdicts = some cache2 ∧
      cache2.Sublist (st.unclaimedBrdicts.getD []) ∧
      (((st.unclaimedBrdicts.getD []).map
          (fun brd => brd.buildrequestid)).Nodup →
        breq.id ∉ cache2.map (fun brd => brd.buildrequestid)) ∧
      ((∃ brd ∈ st.unclaimedBrdicts.getD [],
          breq.id = brd.buildrequestid) →
        cache2.length + 1 = (st.unclaimedBrdicts.getD []).length) := by
  rcases hf : getBrdictForBuildRequest (st.unclaimedBrdicts.getD []) breq
      with _ | brdX
  · have hrem : removeBuildRequest st breq =
        { st with unclaimedBrdicts := some (st.unclaimedBrdicts.getD [])
                  breqCache := dictErase st.breqCache breq.id } := by
      unfold removeBuildRequest
      rw [hf]
    rw [hrem]
    unfold getBrdictForBuildRequest at hf
    refine ⟨rfl, rfl, dictLookup_dictErase _ _,
      fun id hid => dictLookup_dictErase_ne _ _ _ hid,
      fun hwf p hp => hwf p (mem_dictErase _ _ _ hp),
      st.unclaimedBrdicts.getD [], rfl, List.Sublist.refl _, ?_, ?_⟩
    · intro _ hmm2
      rcases List.mem_map.mp hmm2 with ⟨brd, hbrd, hbid⟩
      have := List.find?_eq_none.mp hf brd hbrd
      simp only [decide_eq_true_eq] at this
      exact this hbid.symm
    · rintro ⟨brd, hbrd, hbid⟩
      have := List.find?_eq_none.mp hf brd hbrd
      simp only [decide_eq_true_eq] at this
      exact absurd hbid this
  · have hrem : removeBuildRequest st breq =
        { st with
          unclaimedBrdicts := some ((st.unclaimedBrdicts.getD []).erase brdX)
          breqCache := dictErase st.breqCache breq.id } := by
      unfold removeBuildRequest
      rw [hf]
    rw [hrem]
    unfold getBrdictForBuildRequest at hf
    have hmemX : brdX ∈ st.unclaimedBrdicts.getD [] :=
      List.mem_of_find?_eq_some hf
    have hidX : breq.id = brdX.buildrequestid := by
      have := List.find?_some hf
      simpa using this
    refine ⟨rfl, rfl, dictLookup_dictErase _ _,
      fun id hid => dictLookup_dictErase_ne _ _ _ hid,
      fun hwf p hp => hwf p (mem_dictErase _ _ _ hp),
      (st.unclaimedBrdicts.getD []).erase brdX, rfl,
      List.erase_sublist _ _, ?_, ?_⟩
    · intro hnodup
      rw [hidX]
      exact id_not_mem_map_erase _ _ _ hnodup hmemX
    · intro _
      have hpos : 0 < (st.unclaimedBrdicts.getD []).length :=
        List.length_pos.mpr (List.ne_nil_of_mem hmemX)
      have := List.length_erase_of_mem hmemX
      omega

theorem refillWorkerPool_cache_eq (env : ChooserEnv) (st : ChooserState) :
    (refillWorkerPool env st).unclaimedBrdicts = st.unclaimedBrdicts ∧
    (refillWorkerPool env st).breqCache = st.breqCache := by
  unfold refillWorkerPool
  split <;> exact ⟨rfl, rfl⟩

theorem recycleWorkers_cache_eq (st : ChooserState) (recycled : List Worker) :
    (recycleWorkers st recycled).unclaimedBrdicts = st.unclaimedBrdicts ∧
    (recycleWorkers st recycled).breqCache = st.breqCache := by
  unfold recycleWorkers unpopWorkers
  split <;> exact ⟨rfl, rfl⟩

/-- The invariants of the `popNextBuild` loop: (1) cache ids only shrink;
(2) an id absent from the cache and the memo stays absent; (3) memo
well-formedness is preserved; (4) a returned pair's request id was in the
entry cache; (5) uniqueness of cache ids is preserved; (6) with unique
cache ids, every processed request id (a request for which a worker was
drawn, hence `_removeBuildRequest` ran) is absent from the final cache
and the final memo. -/
theorem popNextBuildLoop_invariants (env : ChooserEnv) :
    ∀ (fuel : Nat) (st : ChooserState),
      (∀ id, id ∈ currentCacheIds env (popNextBuildLoop env fuel st).2.1 →
        id ∈ currentCacheIds env st) ∧
      (∀ id, id ∉ currentCacheIds env st →
        dictLookup st.breqCache id = none →
        id ∉ currentCacheIds env (popNextBuildLoop env fuel st).2.1 ∧
        dictLookup (popNextBuildLoop env fuel st).2.1.breqCache id = none) ∧
      (WfBreqCache st → WfBreqCache (popNextBuildLoop env fuel st).2.1) ∧
      (WfBreqCache st → ∀ w b, (popNextBuildLoop env fuel st).1 = some (w, b) →
        b.id ∈ currentCacheIds env st) ∧
      ((currentCacheIds env st).Nodup →
        (currentCacheIds env (popNextBuildLoop env fuel st).2.1).Nodup) ∧
      ((currentCacheIds env st).Nodup →
        ∀ id ∈ (popNextBuildLoop env fuel st).2.2.2,
          id ∉ currentCacheIds env (popNextBuildLoop env fuel st).2.1 ∧
          dictLookup (popNextBuildLoop env fuel st).2.1.breqCache id = none) := by
  intro fuel
  induction fuel with
  | zero =>
    intro st
    exact ⟨fun _ h => h, fun _ h1 h2 => ⟨h1, h2⟩, fun h => h,
      fun _ _ _ hb => Option.noConfusion hb, fun h => h,
      fun _ id hid => absurd hid (List.not_mem_nil id)⟩
  | succ fuel ih =>
    intro st
    rcases hget : getNextUnclaimedBuildRequest env st with ⟨obreq, st1⟩
    have hgp := getNextUnclaimedBuildRequest_props env st
    rw [hget] at hgp
    have hst1u : st1.unclaimedBrdicts = some (currentBrdicts env st) := hgp.1
    have hids1 : currentCacheIds env st1 = currentCacheIds env st := by
      simp only [currentCacheIds, currentBrdicts, hst1u]
    have hmemo1 : ∀ id, id ∉ currentCacheIds env st →
        dictLookup st1.breqCache id = dictLookup st.breqCache id :=
      hgp.2.2.2.1
    have hwf1 : WfBreqCache st → WfBreqCache st1 := hgp.2.2.2.2.1
    rcases obreq with _ | breq
    · have hloop : popNextBuildLoop env (fuel + 1) st = (none, st1, 0, []) := by
        simp only [popNextBuildLoop, hget]
      rw [hloop]
      dsimp only
      refine ⟨?_, ?_, hwf1, ?_, ?_, ?_⟩
      · intro id h
        rw [hids1] at h
        exact h
      · intro id h1 h2
        exact ⟨by rw [hids1]; exact h1, (hmemo1 id h1).trans h2⟩
      · intro _ w b hb
        exact Option.noConfusion hb
      · intro h
        rw [hids1]
        exact h
      · intro _ id hid
        exact absurd hid (List.not_mem_nil id)
    · rcases hpop : popNextWorker env (refillWorkerPool env st1) breq
        with ⟨ow, st3, n1⟩
      have hrf := refillWorkerPool_cache_eq env st1
      have hpw : st3.unclaimedBrdicts
            = (refillWorkerPool env st1).unclaimedBrdicts ∧
          st3.breqCache = (refillWorkerPool env st1).breqCache := by
        have h := popNextWorker_cache_eq env (refillWorkerPool env st1) breq
        rw [hpop] at h
        exact h
      have hst3u : st3.unclaimedBrdicts = some (currentBrdicts env st) := by
        rw [hpw.1, hrf.1, hst1u]
      have hst3b : st3.breqCache = st1.breqCache := by
        rw [hpw.2, hrf.2]
      have hids3 : currentCacheIds env st3 = currentCacheIds env st := by
        simp only [currentCacheIds, currentBrdicts, hst3u]
      rcases ow with _ | w
      · have hloop : popNextBuildLoop env (fuel + 1) st = (none, st3, n1, []) := by
          simp only [popNextBuildLoop, hget, hpop]
        rw [hloop]
        dsimp only
        refine ⟨?_, ?_, ?_, ?_, ?_, ?_⟩
        · intro id h
          rw [hids3] at h
          exact h
        · intro id h1 h2
          refine ⟨by rw [hids3]; exact h1, ?_⟩
          rw [hst3b]
          exact (hmemo1 id h1).trans h2
        · intro hwf p hp
          rw [hst3b] at hp
          exact (hwf1 hwf) p hp
        · intro _ w b hb
          exact Option.noConfusion hb
        · intro h
          rw [hids3]
          exact h
        · intro _ id hid
          exact absurd hid (List.not_mem_nil id)
      · have hrem := removeBuildRequest_props st3 breq
        rcases hrem.2.2.2.2.2 with ⟨cache2, hc2eq, hc2sub, hc2nodup, _hc2len⟩
        have hgetD : st3.unclaimedBrdicts.getD [] = currentBrdicts env st := by
          rw [hst3u]
          rfl
        have hids4 : currentCacheIds env (removeBuildRequest st3 breq)
            = cache2.map (fun brd => brd.buildrequestid) := by
          simp only [currentCacheIds, currentBrdicts, hc2eq]
        have hsub4 : ∀ id, id ∈ cache2.map (fun brd => brd.buildrequestid) →
            id ∈ currentCacheIds env st := by
          intro id hid
          rcases List.mem_map.mp hid with ⟨brd, hbrd, hbid⟩
          have hmem : brd ∈ currentBrdicts env st := by
            rw [← hgetD]
            exact hc2sub.subset hbrd
          rw [← hbid]
          exact List.mem_map_of_mem _ hmem
        rcases hfind : findUsableWorker env breq (removeBuildRequest st3 breq) w []
          with ⟨res, st5, rec, n2⟩
        have hfc : st5.unclaimedBrdicts
              = (removeBuildRequest st3 breq).unclaimedBrdicts ∧
            st5.breqCache = (removeBuildRequest st3 breq).breqCache := by
          have h := findUsableWorker_cache_eq env breq
            (removeBuildRequest st3 breq) w []
          rw [hfind] at h
          exact h
        have hrc := recycleWorkers_cache_eq st5 rec
        have hst6u : (recycleWorkers st5 rec).unclaimedBrdicts = some cache2 := by
          rw [hrc.1, hfc.1, hc2eq]
        have hst6b : (recycleWorkers st5 rec).breqCache
            = (removeBuildRequest st3 breq).breqCache := by
          rw [hrc.2, hfc.2]
        have hids6 : currentCacheIds env (recycleWorkers st5 rec)
            = cache2.map (fun brd => brd.buildrequestid) := by
          simp only [currentCacheIds, currentBrdicts, hst6u]
        have hmemo6none :
            dictLookup (recycleWorkers st5 rec).breqCache breq.id = none := by
          rw [hst6b]
          exact hrem.2.2.1
        have hmemo6ne : ∀ id, id ≠ breq.id →
            dictLookup (recycleWorkers st5 rec).breqCache id
              = dictLookup st3.breqCache id := by
          intro id hid
          rw [hst6b]
          exact hrem.2.2.2.1 id hid
        have hmemo6abs : ∀ id, id ∉ currentCacheIds env st →
            dictLookup st.breqCache id = none →
            dictLookup (recycleWorkers st5 rec).breqCache id = none := by
          intro id h1 h2
          by_cases hide : id = breq.id
          · rw [hide]
            exact hmemo6none
          · rw [hmemo6ne id hide, hst3b]
            exact (hmemo1 id h1).trans h2
        have hwf6 : WfBreqCache st → WfBreqCache (recycleWorkers st5 rec) := by
          intro hwf
          have hwf3 : WfBreqCache st3 := by
            intro p hp
            rw [hst3b] at hp
            exact (hwf1 hwf) p hp
          have hwf4 := hrem.2.2.2.2.1 hwf3
          intro p hp
          rw [hst6b] at hp
          exact hwf4 p hp
        have hbreqid : WfBreqCache st → breq.id ∈ currentCacheIds env st :=
          fun hwf => hgp.2.2.2.2.2 hwf breq rfl
        have hbreqgone : (currentCacheIds env st).Nodup →
            breq.id ∉ cache2.map (fun brd => brd.buildrequestid) := by
          intro hnd
          apply hc2nodup
          rw [hgetD]
          exact hnd
        have hnd6 : (currentCacheIds env st).Nodup →
            (currentCacheIds env (recycleWorkers st5 rec)).Nodup := by
          intro hnd
          rw [hids6]
          refine List.Nodup.sublist (hc2sub.map _) ?_
          rw [hgetD]
          exact hnd
        rcases res with _ | w2
        · rcases hrec2 : popNextBuildLoop env fuel (recycleWorkers st5 rec)
            with ⟨res2, st7, n3, ids2⟩
          have hihall := ih (recycleWorkers st5 rec)
          rw [hrec2] at hihall
          have hA : ∀ id, id ∈ currentCacheIds env st7 →
              id ∈ currentCacheIds env (recycleWorkers st5 rec) := hihall.1
          have hB : ∀ id, id ∉ currentCacheIds env (recycleWorkers st5 rec) →
              dictLookup (recycleWorkers st5 rec).breqCache id = none →
              id ∉ currentCacheIds env st7 ∧
              dictLookup st7.breqCache id = none := hihall.2.1
          have hC : WfBreqCache (recycleWorkers st5 rec) → WfBreqCache st7 :=
            hihall.2.2.1
          have hD : WfBreqCache (recycleWorkers st5 rec) → ∀ w0 b,
              res2 = some (w0, b) →
              b.id ∈ currentCacheIds env (recycleWorkers st5 rec) :=
            hihall.2.2.2.1
          have hF : (currentCacheIds env (recycleWorkers st5 rec)).Nodup →
              (currentCacheIds env st7).Nodup := hihall.2.2.2.2.1
          have hE : (currentCacheIds env (recycleWorkers st5 rec)).Nodup →
              ∀ id ∈ ids2, id ∉ currentCacheIds env st7 ∧
                dictLookup st7.breqCache id = none := hihall.2.2.2.2.2
          have habs6 : ∀ id, id ∉ currentCacheIds env st →
              dictLookup st.breqCache id = none →
              id ∉ currentCacheIds env (recycleWorkers st5 rec) ∧
              dictLookup (recycleWorkers st5 rec).breqCache id = none := by
            intro id h1 h2
            refine ⟨?_, hmemo6abs id h1 h2⟩
            rw [hids6]
            intro hmem
            exact h1 (hsub4 id hmem)
          have hloop : popNextBuildLoop env (fuel + 1) st
              = (res2, st7, n1 + n2 + n3, breq.id :: ids2) := by
            simp only [popNextBuildLoop, hget, hpop, hfind, hrec2]
          rw [hloop]
          dsimp only
          refine ⟨?_, ?_, ?_, ?_, ?_, ?_⟩
          · intro id h
            have h6 := hA id h
            rw [hids6] at h6
            exact hsub4 id h6
          · intro id h1 h2
            rcases habs6 id h1 h2 with ⟨h3, h4⟩
            exact hB id h3 h4
          · intro hwf
            exact hC (hwf6 hwf)
          · intro hwf w0 b hb
            have h6 := hD (hwf6 hwf) w0 b hb
            rw [hids6] at h6
            exact hsub4 b.id h6
          · intro hnd
            exact hF (hnd6 hnd)
          · intro hnd i hid
            rcases List.mem_cons.mp hid with he | hm
            · subst he
              have h6 : breq.id ∉ currentCacheIds env (recycleWorkers st5 rec) := by
                rw [hids6]
                exact hbreqgone hnd
              exact hB breq.id h6 hmemo6none
            · exact hE (hnd6 hnd) i hm
        · have hloop : popNextBuildLoop env (fuel + 1) st
              = (some (w2, breq), recycleWorkers st5 rec, n1 + n2, [breq.id]) := by
            simp only [popNextBuildLoop, hget, hpop, hfind]
          rw [hloop]
          dsimp only
          refine ⟨?_, ?_, hwf6, ?_, hnd6, ?_⟩
          · intro id h
            rw [hids6] at h
            exact hsub4 id h
          · intro id h1 h2
            refine ⟨?_, hmemo6abs id h1 h2⟩
            rw [hids6]
            intro hmem
            exact h1 (hsub4 id hmem)
          · intro hwf w0 b hb
            injection hb with hb1
            injection hb1 with hb2 hb3
            rw [← hb3]
            exact hbreqid hwf
          · intro hnd i hid
            rcases List.mem_cons.mp hid with he | hm
            · subst he
              refine ⟨?_, hmemo6none⟩
              rw [hids6]
              exact hbreqgone hnd
            · exact absurd hm (List.not_mem_nil i)

/-- Exact behaviour of `_popNextWorker` under a constant next-worker
policy that always answers `w0`. -/
theorem popNextWorker_const (env : ChooserEnv) (w0 : Worker)
    (hnw : ∀ pool b, env.nextWorker pool b = some w0)
    (st : ChooserState) (breq : BReq) :
    (st.preferredWorkers = [] → st.workerpool = [] →
      popNextWorker env st breq = (none, st, 0)) ∧
    (∀ p rest, st.preferredWorkers = p :: rest →
      popNextWorker env st breq =
        (some p, { st with preferredWorkers := rest }, 0)) ∧
    (st.preferredWorkers = [] → st.workerpool ≠ [] → w0 ∈ st.workerpool →
      popNextWorker env st breq =
        (some w0, { st with workerpool := st.workerpool.erase w0 }, 1)) ∧
    (st.preferredWorkers = [] → st.workerpool ≠ [] → w0 ∉ st.workerpool →
      popNextWorker env st breq = (none, st, 1)) := by
  obtain ⟨u, bc, wp, pw⟩ := st
  refine ⟨?_, ?_, ?_, ?_⟩
  · intro hp hw
    dsimp only at hp hw
    subst hp
    subst hw
    rfl
  · intro p rest hp
    dsimp only at hp
    subst hp
    rfl
  · intro hp hw hmem
    dsimp only at hp hw hmem
    subst hp
    rcases wp with _ | ⟨q, qs⟩
    · exact absurd rfl hw
    · simp only [popNextWorker, hnw, hmem, if_true]
  · intro hp hw hmem
    dsimp only at hp hw hmem
    subst hp
    rcases wp with _ | ⟨q, qs⟩
    · exact absurd rfl hw
    · simp only [popNextWorker, hnw, hmem, if_false]

/-- Exact behaviour of the feasibility loop when `canStartBuild` rejects
everything and the next-worker policy constantly answers `w0` (with a
duplicate-free fresh pool): every preferred worker is consumed and
recycled in order, `w0` is drawn from the fresh pool at most once, and
the policy is invoked at most twice (once for the draw of `w0`, once for
the failing call that ends the loop). -/
theorem findUsableWorker_const (env : ChooserEnv) (w0 : Worker)
    (hcs : ∀ w b, env.canStartBuild w b = false)
    (hnw : ∀ pool b, env.nextWorker pool b = some w0) (breq : BReq) :
    ∀ (pref pool : List Worker) (u : Option (List Brdict))
      (bc : List (Nat × BReq)) (w : Worker) (acc : List Worker),
      pool.Nodup →
      findUsableWorker env breq ⟨u, bc, pool, pref⟩ w acc =
        (none,
         ⟨u, bc, if w0 ∈ pool then pool.erase w0 else pool, []⟩,
         acc ++ w :: (pref ++ if w0 ∈ pool then [w0] else []),
         (if pool = [] then 0 else 1) +
           (if w0 ∈ pool ∧ pool.erase w0 ≠ [] then 1 else 0)) := by
  intro pref
  induction pref with
  | nil =>
    intro pool u bc w acc hnd
    rcases pool with _ | ⟨q, qs⟩
    · rw [findUsableWorker, if_neg (by simp [hcs])]
      have hpop : popNextWorker env ⟨u, bc, [], []⟩ breq
          = (none, ⟨u, bc, [], []⟩, 0) := rfl
      rw [hpop]
      simp
    · by_cases hmem : w0 ∈ q :: qs
      · have hpop1 : popNextWorker env ⟨u, bc, q :: qs, []⟩ breq =
            (some w0, ⟨u, bc, (q :: qs).erase w0, []⟩, 1) := by
          simp only [popNextWorker, hnw, hmem, if_true]
        have hnotmem : w0 ∉ (q :: qs).erase w0 := fun hmm2 =>
          ((List.Nodup.mem_erase_iff hnd).mp hmm2).1 rfl
        have hstep2 : findUsableWorker env breq ⟨u, bc, (q :: qs).erase w0, []⟩
            w0 (acc ++ [w]) =
            (none, ⟨u, bc, (q :: qs).erase w0, []⟩, (acc ++ [w]) ++ [w0],
             if (q :: qs).erase w0 = [] then 0 else 1) := by
          rcases herase : (q :: qs).erase w0 with _ | ⟨e, es⟩
          · have hpop2 : popNextWorker env ⟨u, bc, [], []⟩ breq
                = (none, ⟨u, bc, [], []⟩, 0) := rfl
            rw [findUsableWorker, if_neg (by simp [hcs]), hpop2]
            simp
          · have hpop2 : popNextWorker env ⟨u, bc, e :: es, []⟩ breq =
                (none, ⟨u, bc, e :: es, []⟩, 1) := by
              have hnm : w0 ∉ e :: es := herase ▸ hnotmem
              simp only [popNextWorker, hnw, hnm, if_false]
            rw [findUsableWorker, if_neg (by simp [hcs]), hpop2]
            simp
        rw [findUsableWorker, if_neg (by simp [hcs]), hpop1]
        dsimp only
        rw [hstep2]
        by_cases he : (q :: qs).erase w0 = []
        · simp [hmem, he]
        · simp [hmem, he]
      · have hpop1 : popNextWorker env ⟨u, bc, q :: qs, []⟩ breq =
            (none, ⟨u, bc, q :: qs, []⟩, 1) := by
          simp only [popNextWorker, hnw, hmem, if_false]
        rw [findUsableWorker, if_neg (by simp [hcs]), hpop1]
        simp [hmem]
  | cons p ps ih =>
    intro pool u bc w acc hnd
    have hpop : popNextWorker env ⟨u, bc, pool, p :: ps⟩ breq =
        (some p, ⟨u, bc, pool, ps⟩, 0) := rfl
    rw [findUsableWorker, if_neg (by simp [hcs]), hpop]
    dsimp only
    rw [ih pool u bc p (acc ++ [w]) hnd]
    simp

/-- The behaviour of the whole `popNextBuild` loop in the scenario of
claim C1: no `nextBuild` policy, a `canStartBuild` that rejects every
pairing, and a next-worker policy that constantly answers the same
worker `w0`.  The loop always ends with no pair; the number of policy
invocations is bounded by the number of cached unclaimed requests plus
one (the single possible draw of `w0`); and any fuel of at least
`n + 1` computes the same answer, where `n` is the cache size — i.e. the
wrapper's fuel is sufficient and the loop genuinely terminates. -/
theorem popNextBuildLoop_const_policy (env : ChooserEnv) (w0 : Worker)
    (hnb : env.nextBuild = none)
    (hcs : ∀ w b, env.canStartBuild w b = false)
    (hnw : ∀ pool b, env.nextWorker pool b = some w0) :
    ∀ (n fuel : Nat) (st : ChooserState),
      (currentBrdicts env st).length = n →
      WfBreqCache st → st.workerpool.Nodup →
      ((st.workerpool.isEmpty ∧ st.preferredWorkers.isEmpty) →
        env.availableWorkers = []) →
      n + 1 ≤ fuel →
      (popNextBuildLoop env fuel st).1 = none ∧
      (popNextBuildLoop env fuel st).2.2.1 ≤
        n + (if w0 ∈ st.workerpool then 1 else 0) ∧
      popNextBuildLoop env fuel st = popNextBuildLoop env (n + 1) st := by
  intro n
  induction n using Nat.strong_induction_on with
  | _ n ih =>
  intro fuel st hlen hwf hnd hS hfuel
  rcases fuel with _ | f
  · omega
  rcases hget : getNextUnclaimedBuildRequest env st with ⟨obreq, st1⟩
  have hgp := getNextUnclaimedBuildRequest_props env st
  rw [hget] at hgp
  have hst1u : st1.unclaimedBrdicts = some (currentBrdicts env st) := hgp.1
  have hst1w : st1.workerpool = st.workerpool := hgp.2.1
  have hst1p : st1.preferredWorkers = st.preferredWorkers := hgp.2.2.1
  have hwf1 : WfBreqCache st1 := hgp.2.2.2.2.1 hwf
  rcases obreq with _ | breq
  · have hl1 : ∀ g, popNextBuildLoop env (g + 1) st = (none, st1, 0, []) := by
      intro g
      simp only [popNextBuildLoop, hget]
    refine ⟨by rw [hl1 f], ?_, ?_⟩
    · rw [hl1 f]
      dsimp only
      omega
    · rw [hl1 f, hl1 n]
  · have hne : currentBrdicts env st ≠ [] := by
      intro hnil
      have hn1 : (getNextUnclaimedBuildRequest env st).1 = none := by
        unfold getNextUnclaimedBuildRequest
        rw [fetchUnclaimedBrdicts_eq env st]
        dsimp only
        rw [if_pos (by rw [hnil]; rfl)]
      rw [hget] at hn1
      exact Option.noConfusion hn1
    have hnpos : 1 ≤ n := by
      rcases hcc : currentBrdicts env st with _ | ⟨c, cs⟩
      · exact absurd hcc hne
      · rw [hcc] at hlen
        simp only [List.length_cons] at hlen
        omega
    have hbreqid : breq.id ∈ currentCacheIds env st :=
      hgp.2.2.2.2.2 hwf breq rfl
    -- the continuation after a worker was successfully drawn
    have hstep : ∀ (wdrawn : Worker) (st3 : ChooserState) (n1 : Nat),
        popNextWorker env (refillWorkerPool env st1) breq
          = (some wdrawn, st3, n1) →
        st3.unclaimedBrdicts = some (currentBrdicts env st) →
        st3.breqCache = st1.breqCache →
        st3.workerpool.Nodup →
        (n1 + ((if st3.workerpool = [] then 0 else 1) +
          (if w0 ∈ st3.workerpool ∧ st3.workerpool.erase w0 ≠ [] then 1 else 0))
          ≤ 1 + (if w0 ∈ st.workerpool then 1 else 0)) →
        (popNextBuildLoop env (f + 1) st).1 = none ∧
        (popNextBuildLoop env (f + 1) st).2.2.1 ≤
          n + (if w0 ∈ st.workerpool then 1 else 0) ∧
        popNextBuildLoop env (f + 1) st = popNextBuildLoop env (n + 1) st := by
      intro wdrawn st3 n1 hpop hst3u hst3b hnd3 hacct
      have hrem := removeBuildRequest_props st3 breq
      rcases hrem.2.2.2.2.2 with ⟨cache2, hc2eq, hc2sub, _hc2nodup, hc2len⟩
      have hgetD : st3.unclaimedBrdicts.getD [] = currentBrdicts env st := by
        rw [hst3u]
        rfl
      have hlen2 : cache2.length + 1 = n := by
        have hex : ∃ brd ∈ st3.unclaimedBrdicts.getD [],
            breq.id = brd.buildrequestid := by
          rw [hgetD]
          rcases List.mem_map.mp hbreqid with ⟨brd, hm, hid⟩
          exact ⟨brd, hm, hid.symm⟩
        have h2 := hc2len hex
        rw [hgetD, hlen] at h2
        exact h2
      rcases hre : removeBuildRequest st3 breq with ⟨u4, b4, w4, p4⟩
      have hu4 : u4 = some cache2 := by
        rw [hre] at hc2eq
        exact hc2eq
      have hb4 : b4 = dictErase st3.breqCache breq.id := by
        have h : (removeBuildRequest st3 breq).breqCache
            = dictErase st3.breqCache breq.id := rfl
        rw [hre] at h
        exact h
      have hw4 : w4 = st3.workerpool := by
        have h : (removeBuildRequest st3 breq).workerpool = st3.workerpool := rfl
        rw [hre] at h
        exact h
      have hp4 : p4 = st3.preferredWorkers := by
        have h : (removeBuildRequest st3 breq).preferredWorkers
            = st3.preferredWorkers := rfl
        rw [hre] at h
        exact h
      subst hu4
      subst hb4
      subst hw4
      subst hp4
      have hfind := findUsableWorker_const env w0 hcs hnw breq
        st3.preferredWorkers st3.workerpool (some cache2)
        (dictErase st3.breqCache breq.id) wdrawn [] hnd3
      have hst6v : recycleWorkers
          ⟨some cache2, dictErase st3.breqCache breq.id,
           if w0 ∈ st3.workerpool then st3.workerpool.erase w0
           else st3.workerpool, []⟩
          ([] ++ wdrawn :: (st3.preferredWorkers ++
            if w0 ∈ st3.workerpool then [w0] else [])) =
          ⟨some cache2, dictErase st3.breqCache breq.id,
           (if w0 ∈ st3.workerpool then st3.workerpool.erase w0
            else st3.workerpool),
           wdrawn :: (st3.preferredWorkers ++
             if w0 ∈ st3.workerpool then [w0] else [])⟩ := by
        simp [recycleWorkers, unpopWorkers]
      have hl1 : ∀ g, popNextBuildLoop env (g + 1) st =
          ((popNextBuildLoop env g
              ⟨some cache2, dictErase st3.breqCache breq.id,
               (if w0 ∈ st3.workerpool then st3.workerpool.erase w0
                else st3.workerpool),
               wdrawn :: (st3.preferredWorkers ++
                 if w0 ∈ st3.workerpool then [w0] else [])⟩).1,
           (popNextBuildLoop env g
              ⟨some cache2, dictErase st3.breqCache breq.id,
               (if w0 ∈ st3.workerpool then st3.workerpool.erase w0
                else st3.workerpool),
               wdrawn :: (st3.preferredWorkers ++
                 if w0 ∈ st3.workerpool then [w0] else [])⟩).2.1,
           n1 + ((if st3.workerpool = [] then 0 else 1) +
             (if w0 ∈ st3.workerpool ∧ st3.workerpool.erase w0 ≠ []
              then 1 else 0)) +
             (popNextBuildLoop env g
                ⟨some cache2, dictErase st3.breqCache breq.id,
                 (if w0 ∈ st3.workerpool then st3.workerpool.erase w0
                  else st3.workerpool),
                 wdrawn :: (st3.preferredWorkers ++
                   if w0 ∈ st3.workerpool then [w0] else [])⟩).2.2.1,
           breq.id ::
             (popNextBuildLoop env g
                ⟨some cache2, dictErase st3.breqCache breq.id,
                 (if w0 ∈ st3.workerpool then st3.workerpool.erase w0
                  else st3.workerpool),
                 wdrawn :: (st3.preferredWorkers ++
                   if w0 ∈ st3.workerpool then [w0] else [])⟩).2.2.2) := by
        intro g
        rcases hrec2 : popNextBuildLoop env g
            ⟨some cache2, dictErase st3.breqCache breq.id,
             (if w0 ∈ st3.workerpool then st3.workerpool.erase w0
              else st3.workerpool),
             wdrawn :: (st3.preferredWorkers ++
               if w0 ∈ st3.workerpool then [w0] else [])⟩
          with ⟨res2, st7, n3, ids2⟩
        simp only [popNextBuildLoop, hget, hpop, hre, hfind, hst6v, hrec2]
      -- invariants of the recursion state
      have hwf3 : WfBreqCache st3 := by
        intro p hp
        rw [hst3b] at hp
        exact hwf1 p hp
      have hwf6 : WfBreqCache
          ⟨some cache2, dictErase st3.breqCache breq.id,
           (if w0 ∈ st3.workerpool then st3.workerpool.erase w0
            else st3.workerpool),
           wdrawn :: (st3.preferredWorkers ++
             if w0 ∈ st3.workerpool then [w0] else [])⟩ := by
        intro p hp
        exact hwf3 p (mem_dictErase _ _ _ hp)
      have hnd6 : (if w0 ∈ st3.workerpool then st3.workerpool.erase w0
          else st3.workerpool).Nodup := by
        by_cases hm3 : w0 ∈ st3.workerpool
        · rw [if_pos hm3]
          exact hnd3.erase w0
        · rw [if_neg hm3]
          exact hnd3
      have hlen6 : (currentBrdicts env
          ⟨some cache2, dictErase st3.breqCache breq.id,
           (if w0 ∈ st3.workerpool then st3.workerpool.erase w0
            else st3.workerpool),
           wdrawn :: (st3.preferredWorkers ++
             if w0 ∈ st3.workerpool then [w0] else [])⟩).length = n - 1 := by
        have hcur : currentBrdicts env
            ⟨some cache2, dictErase st3.breqCache breq.id,
             (if w0 ∈ st3.workerpool then st3.workerpool.erase w0
              else st3.workerpool),
             wdrawn :: (st3.preferredWorkers ++
               if w0 ∈ st3.workerpool then [w0] else [])⟩ = cache2 := rfl
        rw [hcur]
        omega
      have hrec := ih (n - 1) (by omega) f
        ⟨some cache2, dictErase st3.breqCache breq.id,
         (if w0 ∈ st3.workerpool then st3.workerpool.erase w0
          else st3.workerpool),
         wdrawn :: (st3.preferredWorkers ++
           if w0 ∈ st3.workerpool then [w0] else [])⟩
        hlen6 hwf6 hnd6
        (by
          rintro ⟨-, h2⟩
          simp at h2)
        (by omega)
      have hflag6 : (if w0 ∈ (if w0 ∈ st3.workerpool
          then st3.workerpool.erase w0 else st3.workerpool)
          then 1 else 0) = 0 := by
        by_cases hm3 : w0 ∈ st3.workerpool
        · rw [if_pos hm3]
          rw [if_neg (fun hmm2 =>
            ((List.Nodup.mem_erase_iff hnd3).mp hmm2).1 rfl)]
        · rw [if_neg hm3]
          rw [if_neg hm3]
      have hn1e : n - 1 + 1 = n := by omega
      have hstab := hrec.2.2
      rw [hn1e] at hstab
      refine ⟨?_, ?_, ?_⟩
      · rw [hl1 f]
        dsimp only
        exact hrec.1
      · rw [hl1 f]
        dsimp only
        have hb3 := hrec.2.1
        rw [hflag6] at hb3
        omega
      · rw [hl1 f, hl1 n, hstab]
    -- case analysis on the worker pools
    rcases hpref : st.preferredWorkers with _ | ⟨p, prest⟩
    · by_cases hpoolnil : st.workerpool = []
      · -- both pools empty: refill is a no-op (no workers available), break
        have havail : env.availableWorkers = [] :=
          hS ⟨by rw [hpoolnil]; rfl, by rw [hpref]; rfl⟩
        have hrefill : refillWorkerPool env st1 = { st1 with workerpool := [] } := by
          unfold refillWorkerPool
          rw [if_pos ⟨by rw [hst1w, hpoolnil]; rfl, by rw [hst1p, hpref]; rfl⟩,
            havail]
        have hpop : popNextWorker env (refillWorkerPool env st1) breq
            = (none, { st1 with workerpool := ([] : List Worker) }, 0) := by
          rw [hrefill]
          exact (popNextWorker_const env w0 hnw _ breq).1
            (by dsimp only; rw [hst1p, hpref]) rfl
        have hl1 : ∀ g, popNextBuildLoop env (g + 1) st
            = (none, { st1 with workerpool := ([] : List Worker) }, 0, []) := by
          intro g
          simp only [popNextBuildLoop, hget, hpop]
        refine ⟨by rw [hl1 f], ?_, by rw [hl1 f, hl1 n]⟩
        rw [hl1 f]
        dsimp only
        omega
      · have hrefill : refillWorkerPool env st1 = st1 := by
          unfold refillWorkerPool
          rw [if_neg]
          rintro ⟨h1, -⟩
          rw [hst1w] at h1
          exact hpoolnil (List.isEmpty_iff.mp h1)
        by_cases hmem : w0 ∈ st.workerpool
        · have hpop : popNextWorker env (refillWorkerPool env st1) breq =
              (some w0, { st1 with workerpool := st1.workerpool.erase w0 }, 1) := by
            rw [hrefill]
            exact (popNextWorker_const env w0 hnw st1 breq).2.2.1
              (by rw [hst1p, hpref]) (by rw [hst1w]; exact hpoolnil)
              (by rw [hst1w]; exact hmem)
          refine hstep w0 _ 1 hpop (by dsimp only; rw [hst1u]) (by dsimp only)
            (by dsimp only; rw [hst1w]; exact hnd.erase w0) ?_
          have hnm : w0 ∉ st1.workerpool.erase w0 := by
            rw [hst1w]
            exact fun hmm2 => ((List.Nodup.mem_erase_iff hnd).mp hmm2).1 rfl
          dsimp only
          have hcond : ¬ (w0 ∈ st1.workerpool.erase w0 ∧
              (st1.workerpool.erase w0).erase w0 ≠ []) := by
            rintro ⟨h1, -⟩
            exact hnm h1
          rw [if_pos hmem, if_neg hcond]
          by_cases he : st1.workerpool.erase w0 = []
          · rw [if_pos he]
            omega
          · rw [if_neg he]
            try omega
        · have hpop : popNextWorker env (refillWorkerPool env st1) breq
              = (none, st1, 1) := by
            rw [hrefill]
            exact (popNextWorker_const env w0 hnw st1 breq).2.2.2
              (by rw [hst1p, hpref]) (by rw [hst1w]; exact hpoolnil)
              (by rw [hst1w]; exact hmem)
          have hl1 : ∀ g, popNextBuildLoop env (g + 1) st = (none, st1, 1, []) := by
            intro g
            simp only [popNextBuildLoop, hget, hpop]
          refine ⟨by rw [hl1 f], ?_, by rw [hl1 f, hl1 n]⟩
          rw [hl1 f]
          dsimp only
          rw [if_neg hmem]
          omega
    · -- a preferred worker is served first, with no policy invocation
      have hrefill : refillWorkerPool env st1 = st1 := by
        unfold refillWorkerPool
        rw [if_neg]
        rintro ⟨-, h2⟩
        rw [hst1p, hpref] at h2
        exact Bool.noConfusion h2
      have hpop : popNextWorker env (refillWorkerPool env st1) breq =
          (some p, { st1 with preferredWorkers := prest }, 0) := by
        rw [hrefill]
        exact (popNextWorker_const env w0 hnw st1 breq).2.1 p prest
          (by rw [hst1p, hpref])
      refine hstep p _ 0 hpop (by dsimp only; rw [hst1u]) (by dsimp only)
        (by dsimp only; rw [hst1w]; exact hnd) ?_
      dsimp only
      rw [hst1w]
      by_cases h2 : w0 ∈ st.workerpool
      · rw [if_pos h2]
        by_cases h3 : w0 ∈ st.workerpool ∧ st.workerpool.erase w0 ≠ []
        · rw [if_pos h3, if_neg (List.ne_nil_of_mem h2)]
          try omega
        · rw [if_neg h3]
          by_cases h1 : st.workerpool = []
          · rw [if_pos h1]
            omega
          · rw [if_neg h1]
            omega
      · have hcond2 : ¬ (w0 ∈ st.workerpool ∧ st.workerpool.erase w0 ≠ []) := by
          rintro ⟨hm, -⟩
          exact h2 hm
        rw [if_neg h2, if_neg hcond2]
        by_cases h1 : st.workerpool = []
        · rw [if_pos h1]
          omega
        · rw [if_neg h1]
          try omega

/-! ## Claim C10: drawn requests are evicted from the chooser -/

/-- Claim C10: after a `popNextBuild` run, every request for which at
least one worker was drawn (each such request was passed to
`_removeBuildRequest`, even when every drawn worker was rejected) is
absent from the chooser's unclaimed cache and from its resolved-request
memo; consequently a later `popNextBuild` on the same chooser state can
never return a pair for such a request.  The chooser performs no store
operation, so the request stays unclaimed in the store. -/
theorem C10_drawn_requests_evicted (env : ChooserEnv) (st : ChooserState)
    (hnodup : (currentCacheIds env st).Nodup) (hwf : WfBreqCache st) :
    (∀ id ∈ (popNextBuild env st).2.2.2,
      id ∉ currentCacheIds env (popNextBuild env st).2.1 ∧
      dictLookup (popNextBuild env st).2.1.breqCache id = none) ∧
    (∀ w b, (popNextBuild env (popNextBuild env st).2.1).1 = some (w, b) →
      b.id ∉ (popNextBuild env st).2.2.2) := by
  have hinv := popNextBuildLoop_invariants env (popFuel env st) st
  constructor
  · exact hinv.2.2.2.2.2 hnodup
  · intro w b hb hmem
    have habs := (hinv.2.2.2.2.2 hnodup) b.id hmem
    have hwf2 : WfBreqCache (popNextBuild env st).2.1 := hinv.2.2.1 hwf
    have hres := (popNextBuildLoop_invariants env
      (popFuel env (popNextBuild env st).2.1)
      (popNextBuild env st).2.1).2.2.2.1 hwf2 w b hb
    exact habs.1 hres

/-- Witness for C10 at a concrete input: running the chooser of
`constPolicyEnv` (two requests, both workers rejected) evicts the
processed requests from cache and memo. -/
theorem C10_drawn_requests_evicted_witness :
    (currentCacheIds constPolicyEnv (mkBasicBuildChooser constPolicyEnv)).Nodup ∧
    (∀ id ∈ (popNextBuild constPolicyEnv
        (mkBasicBuildChooser constPolicyEnv)).2.2.2,
      id ∉ currentCacheIds constPolicyEnv
        (popNextBuild constPolicyEnv (mkBasicBuildChooser constPolicyEnv)).2.1 ∧
      dictLookup (popNextBuild constPolicyEnv
        (mkBasicBuildChooser constPolicyEnv)).2.1.breqCache id = none) :=
  ⟨by decide,
   (C10_drawn_requests_evicted constPolicyEnv
     (mkBasicBuildChooser constPolicyEnv) (by decide)
     (fun p hp => absurd hp (List.not_mem_nil p))).1⟩

/-! ## Claim C1: the policy invocation bound -/

/-- Counterexample to claim C1 as stated: with two available workers
`[1, 2]`, two cached requests, a next-worker policy that always returns
worker 1 and a `canStartBuild` that rejects everything, `popNextBuild`
terminates with no pair but invokes the policy 3 times — more than the
worker-pool size 2, refuting "the total number of policy invocations is
bounded by the size of the worker pool". -/
theorem C1_counterexample :
    (popNextBuild constPolicyEnv (mkBasicBuildChooser constPolicyEnv)).1
      = none ∧
    (popNextBuild constPolicyEnv (mkBasicBuildChooser constPolicyEnv)).2.2.1
      = 3 ∧
    constPolicyEnv.availableWorkers.length = 2 ∧
    ¬ ((3 : Nat) ≤ 2) := by
  refine ⟨?_, ?_, rfl, by omega⟩
  · simp [popNextBuild, popFuel, popNextBuildLoop, mkBasicBuildChooser,
      constPolicyEnv, getNextUnclaimedBuildRequest, fetchUnclaimedBrdicts,
      getBuildRequestForBrdict, getUnclaimedBuildRequests, breqOfBrdict,
      dictLookup, dictInsert, dictErase, removeBuildRequest,
      getBrdictForBuildRequest, refillWorkerPool, recycleWorkers,
      unpopWorkers, popNextWorker, findUsableWorker, List.insertionSort,
      List.orderedInsert, brdictIdLe, brdictPriorityGe]
  · simp [popNextBuild, popFuel, popNextBuildLoop, mkBasicBuildChooser,
      constPolicyEnv, getNextUnclaimedBuildRequest, fetchUnclaimedBrdicts,
      getBuildRequestForBrdict, getUnclaimedBuildRequests, breqOfBrdict,
      dictLookup, dictInsert, dictErase, removeBuildRequest,
      getBrdictForBuildRequest, refillWorkerPool, recycleWorkers,
      unpopWorkers, popNextWorker, findUsableWorker, List.insertionSort,
      List.orderedInsert, brdictIdLe, brdictPriorityGe]

/-- Claim C1 (corrected): over a `BasicBuildChooser` lifetime started at
`__init__`, with a next-worker policy that always returns the same
worker `w0` and a `canStartBuild` that rejects every pairing (and no
`nextBuild` policy), `popNextBuild` terminates with no pair, and the
number of policy invocations is bounded by the number of stored
unclaimed requests plus one (one possible draw of `w0` — each draw
permanently removes the worker from the fresh pool — plus at most one
failing invocation per candidate request); the worker-pool size does not
bound the invocation count.  The third conjunct shows the loop's fuel is
immaterial beyond the wrapper's choice, i.e. the loop genuinely
terminates. -/
theorem C1_const_policy_invocation_bound (env : ChooserEnv) (w0 : Worker)
    (hnb : env.nextBuild = none)
    (hcs : ∀ w b, env.canStartBuild w b = false)
    (hnw : ∀ pool b, env.nextWorker pool b = some w0)
    (hnd : env.availableWorkers.Nodup) :
    (popNextBuild env (mkBasicBuildChooser env)).1 = none ∧
    (popNextBuild env (mkBasicBuildChooser env)).2.2.1
      ≤ env.store.length + 1 ∧
    (∀ fuel, env.store.length + 1 ≤ fuel →
      popNextBuildLoop env fuel (mkBasicBuildChooser env)
        = popNextBuild env (mkBasicBuildChooser env)) := by
  have hlen : (currentBrdicts env (mkBasicBuildChooser env)).length
      = env.store.length := by
    have h : currentBrdicts env (mkBasicBuildChooser env)
        = List.insertionSort brdictIdLe env.store := rfl
    rw [h]
    exact (List.perm_insertionSort brdictIdLe env.store).length_eq
  have hwfmk : WfBreqCache (mkBasicBuildChooser env) :=
    fun p hp => absurd hp (List.not_mem_nil p)
  have hSmk : ((mkBasicBuildChooser env).workerpool.isEmpty
      ∧ (mkBasicBuildChooser env).preferredWorkers.isEmpty) →
      env.availableWorkers = [] := by
    rintro ⟨h1, -⟩
    exact List.isEmpty_iff.mp h1
  have hmain := popNextBuildLoop_const_policy env w0 hnb hcs hnw
    env.store.length (env.store.length + 1) (mkBasicBuildChooser env)
    hlen hwfmk hnd hSmk (by omega)
  have hflag : (if w0 ∈ (mkBasicBuildChooser env).workerpool then 1 else 0)
      ≤ 1 := by
    by_cases h : w0 ∈ (mkBasicBuildChooser env).workerpool
    · rw [if_pos h]
    · rw [if_neg h]
      omega
  refine ⟨hmain.1, ?_, ?_⟩
  · exact le_trans hmain.2.1 (Nat.add_le_add_left hflag env.store.length)
  · intro fuel hfuel
    have h2 := popNextBuildLoop_const_policy env w0 hnb hcs hnw
      env.store.length fuel (mkBasicBuildChooser env)
      hlen hwfmk hnd hSmk hfuel
    exact h2.2.2

/-- Witness for C1's corrected statement at the concrete environment of
the counterexample (3 invocations ≤ 2 requests + 1). -/
theorem C1_const_policy_invocation_bound_witness :
    (popNextBuild constPolicyEnv (mkBasicBuildChooser constPolicyEnv)).1
      = none ∧
    (popNextBuild constPolicyEnv (mkBasicBuildChooser constPolicyEnv)).2.2.1
      ≤ constPolicyEnv.store.length + 1 :=
  ⟨(C1_const_policy_invocation_bound constPolicyEnv 1 rfl
      (fun _ _ => rfl) (fun _ _ => rfl) (by decide)).1,
   (C1_const_policy_invocation_bound constPolicyEnv 1 rfl
      (fun _ _ => rfl) (fun _ _ => rfl) (by decide)).2.1⟩

end Buildbot
